import Mathlib

/-!
Verification of the procedural level generator and the movement/collision
engine of a tile-based action game (scripts/map.py, scripts/sprite.py,
scripts/tile.py, scripts/utils.py).

Embedding conventions:
* Python floats are modelled as rationals.  Vector normalisation divides by
  a rational square root that is exact whenever the squared magnitude is a
  perfect rational square (in particular for axis-aligned directions, the
  only directions used by concrete inputs below); for other vectors the
  model returns 0, a case no theorem below relies on.
* `random.shuffle` is modelled by a stream `Nat -> Nat` of seeds, each seed
  selecting one of the permutations of the shuffled list; `random.randint`
  and `random.choice` are modelled likewise.  Quantifying over all streams
  quantifies over all seeds.
* Unbounded `while` loops take a fuel parameter; all invariant theorems are
  proved for every fuel, hence in particular for any terminating run.
* Matrices (`list[list[...]]`) are Lean lists of lists with the accessor
  defaulting outside the allocated area; every source access is guarded by
  `is_within_bounds`, so the default is never observable.
-/

namespace Game

/-- `utils.is_within_bounds`: `0 <= x < width and 0 <= y < height`. -/
def is_within_bounds (x y : Int) (width height : Nat) : Bool :=
  (0 ≤ x && x < (width : Int)) && (0 ≤ y && y < (height : Int))

/-- Read cell `(x, y)` (column `x` of row `y`) of a matrix, i.e. the source
expression `m[y][x]`; out-of-range reads return the default `d`.  Every
source access is bounds-guarded, so the default is unobservable. -/
def gridGet (d : α) (m : List (List α)) (x y : Int) : α :=
  if 0 ≤ x ∧ 0 ≤ y then (m.getD y.toNat []).getD x.toNat d else d

/-- Write cell `(x, y)` of a matrix, i.e. the source statement
`m[y][x] = c`; out-of-range writes are dropped (never reached in source). -/
def gridSet (m : List (List α)) (x y : Int) (c : α) : List (List α) :=
  if 0 ≤ x ∧ 0 ≤ y then m.set y.toNat ((m.getD y.toNat []).set x.toNat c)
  else m

/-- The three cell markers of the carving pipeline: `Map.__WALL` (`"##"`),
`Map.__AIR` (`"  "`) and `Map.__HOLE` (`"**"`). -/
inductive Cell where
  | wall
  | air
  | hole
deriving DecidableEq, Repr

abbrev Maze := List (List Cell)

def mget (m : Maze) (x y : Int) : Cell := gridGet Cell.wall m x y

def mset (m : Maze) (x y : Int) (c : Cell) : Maze := gridSet m x y c

/-- `directions` of `Map.__create_maze`, as `(dy, dx)` pairs. -/
def directions : List (Int × Int) := [(1,0), (-1,0), (0,1), (0,-1)]

/-- `adjacent_directions` as written in `Map.__create_maze` and
`Map.__smooth_maze`, as `(dy, dx)` pairs.  The source list repeats
`(0, -1)` and omits `(1, -1)`. -/
def adjacent_directions : List (Int × Int) :=
  [(0,1), (0,-1), (1,0), (1,1), (0,-1), (-1,0), (-1,1), (-1,-1)]

/-- Select the permutation of `l` encoded by seed `n` (Fisher-Yates style:
digit `n % len` picks the head).  As `n` ranges over `Nat`, every
permutation of `l` is produced, so quantifying over seeds models
`random.shuffle`. -/
def selectPermAux : Nat → Nat → List α → List α
  | 0, _, _ => []
  | _ + 1, _, [] => []
  | k + 1, n, a :: as =>
    let l := a :: as
    let i := n % l.length
    l.getD i a :: selectPermAux k (n / l.length) (l.eraseIdx i)

def selectPerm (n : Nat) (l : List α) : List α := selectPermAux l.length n l

/-- `__has_unvisited_neighbors` inside `Map.__create_maze`. -/
def has_unvisited_neighbors (m : Maze) (w h : Nat) (pos : Int × Int) : Bool :=
  directions.any fun d =>
    let nx := pos.1 + d.2 * 2
    let ny := pos.2 + d.1 * 2
    is_within_bounds nx ny w h && decide (mget m nx ny = Cell.wall)

/-- The randomized depth-first carving loop (`while stack:`) of
`Map.__create_maze`.  `rng` feeds `random.shuffle` (index `k`), `fuel`
bounds the number of loop iterations. -/
def dfsLoop (w h : Nat) (rng : Nat → Nat) :
    Nat → Maze → List (Int × Int) → Nat → Maze
  | 0, m, _, _ => m
  | _ + 1, m, [], _ => m
  | fuel + 1, m, c :: rest, k =>
    if has_unvisited_neighbors m w h c then
      let m1 := mset m c.1 c.2 Cell.air
      let dirs := selectPerm (rng k) directions
      match dirs.find? (fun d =>
          is_within_bounds (c.1 + d.2 * 2) (c.2 + d.1 * 2) w h &&
          decide (mget m1 (c.1 + d.2 * 2) (c.2 + d.1 * 2) = Cell.wall)) with
      | some d =>
        let nx := c.1 + d.2 * 2
        let ny := c.2 + d.1 * 2
        let m2 := mset m1 (c.1 + d.2) (c.2 + d.1) Cell.air
        let m3 := mset m2 nx ny Cell.hole
        dfsLoop w h rng fuel m3 ((nx, ny) :: c :: rest) (k + 1)
      | none => dfsLoop w h rng fuel m1 (c :: rest) (k + 1)
    else dfsLoop w h rng fuel m rest k

/-- The carving phase of `Map.__create_maze` up to (and including) the
final `maze[sy][sx] = self.__HOLE`, i.e. the maze state just before the
border-enforcement and widening scan.  `W`, `H` are the full-resolution
dimensions (`self.width`, `self.height`). -/
def dfsPhase (W H : Nat) (rng : Nat → Nat) (fuel : Nat) : Maze :=
  let w := W / 2
  let h := H / 2
  let sx : Int := (w / 2 : Nat)
  let sy : Int := (h / 2 : Nat)
  let m0 : Maze := List.replicate h (List.replicate w Cell.wall)
  let m1 := mset m0 sx sy Cell.air
  let m2 := dfsLoop w h rng fuel m1 [(sx, sy)] 0
  mset m2 sx sy Cell.hole

/-- The inner `for dy, dx in adjacent_directions` loop run for a `HOLE`
cell `(x, y)` during the polish scan of `Map.__create_maze`: each
direction possibly opens the neighbour, and the cell itself is reset to
`AIR` on every pass of the loop body. -/
def widenFold (w h b : Nat) (x y : Int) : List (Int × Int) → Maze → Maze
  | [], m => m
  | d :: ds, m =>
    let nx := x + d.2
    let ny := y + d.1
    let m1 := if is_within_bounds (nx - b) (ny - b) (w - 2 * b) (h - 2 * b)
                 && decide (mget m nx ny = Cell.wall)
              then mset m nx ny Cell.air else m
    let m2 := mset m1 x y Cell.air
    widenFold w h b x y ds m2

/-- Body of the inner `for x, element in enumerate(line)` loop of the
polish scan (border columns forced to wall; `HOLE` cells widened). -/
def polishRowCells (w h b : Nat) (y : Int) : List Nat → Maze → Maze
  | [], m => m
  | x :: xs, m =>
    let xi : Int := x
    let m' := if x < b || decide (x + b ≥ w) then mset m xi y Cell.wall
              else if mget m xi y = Cell.hole then
                widenFold w h b xi y adjacent_directions m
              else m
    polishRowCells w h b y xs m'

/-- Outer `for y, line in enumerate(maze)` loop of the polish scan of
`Map.__create_maze` (border rows replaced wholesale by wall rows). -/
def polishRows (w h b : Nat) : List Nat → Maze → Maze
  | [], m => m
  | y :: ys, m =>
    let m' := if y < b || decide (y + b ≥ h) then
                m.set y (List.replicate w Cell.wall)
              else polishRowCells w h b y (List.range ((m.getD y []).length)) m
    polishRows w h b ys m'

def polish (w h b : Nat) (m : Maze) : Maze := polishRows w h b (List.range m.length) m

/-- The final expansion of `Map.__create_maze`: each half-resolution cell
is copied to its 2x2 block, so full-resolution cell `(fx, fy)` holds half
cell `(fx / 2, fy / 2)`. -/
def expandMaze (w h : Nat) (m : Maze) : Maze :=
  (List.range (h * 2)).map fun fy =>
    (List.range (w * 2)).map fun fx =>
      mget m ((fx / 2 : Nat) : Int) ((fy / 2 : Nat) : Int)

/-- `Map.__create_maze`, parameterized by the map size `(W, H)` =
`(self.width, self.height)` and `border` = `self.__border_size`.  Raises
(`ValueError`, modelled as `Except.error`) on odd dimensions or border. -/
def create_maze (W H border : Nat) (rng : Nat → Nat) (fuel : Nat) :
    Except String Maze :=
  if W % 2 ≠ 0 ∨ H % 2 ≠ 0 then
    .error "ValueError: map dimensions must be even"
  else if border % 2 ≠ 0 then
    .error "ValueError: map border size must be even"
  else
    let w := W / 2
    let h := H / 2
    let half := dfsPhase W H rng fuel
    .ok (expandMaze w h (polish w h (border / 2) half))

/-- `random.randint(1, 10)` at stream index `k`. -/
def randint10 (rng : Nat → Nat) (k : Nat) : Nat := rng k % 10 + 1

/-- The neighbour-count loop of `Map.__smooth_maze`: returns
`(wall_count, air_count)` computed over `adjacent_directions` (so with the
source's duplicated west entry and missing south-west entry); a neighbour
outside `(width, height)` counts as wall. -/
def countNeighbors (m : Maze) (x y : Int) (width height : Nat) : Nat × Nat :=
  adjacent_directions.foldl
    (fun acc d =>
      let nx := x + d.2
      let ny := y + d.1
      if is_within_bounds nx ny width height then
        if mget m nx ny = Cell.wall then (acc.1 + 1, acc.2)
        else if mget m nx ny = Cell.air then (acc.1, acc.2 + 1)
        else acc
      else (acc.1 + 1, acc.2))
    (0, 0)

/-- The eight distinct offsets of the 8-neighbourhood. -/
def eight_directions : List (Int × Int) :=
  [(0,1), (0,-1), (1,0), (1,1), (1,-1), (-1,0), (-1,1), (-1,-1)]

/-- Modelled from the spec: "count `Wall` and `Open` neighbors over the
8-neighborhood; a neighbor outside grid bounds counts as `Wall`" - the
same count as `countNeighbors` but over the eight distinct neighbours,
each counted once.  Stated only to compare against the source's count. -/
def count8 (m : Maze) (x y : Int) (width height : Nat) : Nat × Nat :=
  eight_directions.foldl
    (fun acc d =>
      let nx := x + d.2
      let ny := y + d.1
      if is_within_bounds nx ny width height then
        if mget m nx ny = Cell.wall then (acc.1 + 1, acc.2)
        else if mget m nx ny = Cell.air then (acc.1, acc.2 + 1)
        else acc
      else (acc.1 + 1, acc.2))
    (0, 0)

/-- Body of the per-cell step of `Map.__smooth_maze`: counts neighbours in
the old maze `maze`, writes the flip (if any) into `temp`, and advances
the `randint` stream index `k` exactly when the source draws. -/
def smoothCellStep (maze : Maze) (width height : Nat)
    (stop_air stop_wall air_neighbors wall_neighbors : Nat)
    (rng : Nat → Nat) (x y : Int) (temp : Maze) (k : Nat) : Maze × Nat :=
  let counts := countNeighbors maze x y width height
  let e := mget maze x y
  if counts.1 ≥ wall_neighbors ∧ e = Cell.air then
    (if randint10 rng k > stop_wall then mset temp x y Cell.wall else temp, k + 1)
  else if counts.2 ≥ air_neighbors ∧ e = Cell.wall then
    (if randint10 rng k > stop_air then mset temp x y Cell.air else temp, k + 1)
  else (temp, k)

/-- Inner `for x, element in enumerate(line)` loop of one smoothing
iteration (border columns skipped). -/
def smoothRowCells (maze : Maze) (width height border_size : Nat)
    (stop_air stop_wall air_neighbors wall_neighbors : Nat)
    (rng : Nat → Nat) (y : Int) : List Nat → Maze × Nat → Maze × Nat
  | [], acc => acc
  | x :: xs, acc =>
    let acc' :=
      if x < border_size || decide (x + border_size ≥ width) then acc
      else smoothCellStep maze width height stop_air stop_wall air_neighbors
             wall_neighbors rng x y acc.1 acc.2
    smoothRowCells maze width height border_size stop_air stop_wall
      air_neighbors wall_neighbors rng y xs acc'

/-- Outer `for y, line in enumerate(maze)` loop of one smoothing iteration
(border rows skipped). -/
def smoothRows (maze : Maze) (width height border_size : Nat)
    (stop_air stop_wall air_neighbors wall_neighbors : Nat)
    (rng : Nat → Nat) : List Nat → Maze × Nat → Maze × Nat
  | [], acc => acc
  | y :: ys, acc =>
    let acc' :=
      if y < border_size || decide (y + border_size ≥ height) then acc
      else smoothRowCells maze width height border_size stop_air stop_wall
             air_neighbors wall_neighbors rng y
             (List.range ((maze.getD y []).length)) acc
    smoothRows maze width height border_size stop_air stop_wall air_neighbors
      wall_neighbors rng ys acc'

/-- One iteration of the cellular automaton: reads the snapshot `maze`,
accumulates writes into a copy (`temp_maze = deepcopy(maze)`). -/
def smoothIter (maze : Maze) (width height border_size : Nat)
    (stop_air stop_wall air_neighbors wall_neighbors : Nat)
    (rng : Nat → Nat) (k : Nat) : Maze × Nat :=
  smoothRows maze width height border_size stop_air stop_wall air_neighbors
    wall_neighbors rng (List.range maze.length) (maze, k)

/-- `Map.__smooth_maze`.  `width`, `height`, `border_size` are the map
attributes read by the method; `rng`/`k` model the `random.randint`
stream; returns the smoothed maze and the advanced stream index. -/
def smooth_maze (maze : Maze) (ammount : Nat)
    (stop_air stop_wall air_neighbors wall_neighbors : Nat)
    (width height border_size : Nat) (rng : Nat → Nat) (k : Nat) :
    Maze × Nat :=
  match ammount with
  | 0 => (maze, k)
  | n + 1 =>
    let acc := smoothIter maze width height border_size stop_air stop_wall
      air_neighbors wall_neighbors rng k
    smooth_maze acc.1 n stop_air stop_wall air_neighbors wall_neighbors
      width height border_size rng acc.2

/-! ## Movement/collision engine (`scripts/sprite.py`, class `MovingSprite`) -/

/-- `pygame.Rect`: integer left/top/width/height. -/
structure Rect where
  left : Int
  top : Int
  width : Int
  height : Int
deriving DecidableEq, Repr

def Rect.right (r : Rect) : Int := r.left + r.width

def Rect.bottom (r : Rect) : Int := r.top + r.height

/-- `pygame.Rect.colliderect`: strict overlap (touching edges do not
collide). -/
def colliderect (a b : Rect) : Bool :=
  decide (a.left < b.right ∧ b.left < a.right ∧ a.top < b.bottom ∧ b.top < a.bottom)

/-- `pygame.Rect.inflate`: grow around the centre (C truncating division,
only even deltas occur in the source). -/
def inflateRect (r : Rect) (dx dy : Int) : Rect :=
  { left := r.left - dx / 2, top := r.top - dy / 2,
    width := r.width + dx, height := r.height + dy }

/-- Python `int(q)`: truncation toward zero. -/
def pyint (q : ℚ) : Int := if q < 0 then -⌊-q⌋ else ⌊q⌋

/-- Python `round(q)`: round half to even. -/
def pyround (q : ℚ) : Int :=
  let f := ⌊q⌋
  let r := q - f
  if r < 1/2 then f
  else if 1/2 < r then f + 1
  else if 2 ∣ f then f else f + 1

/-- `math.copysign a b` (`b = 0` counts as positive, as for float `+0.0`). -/
def copysignQ (a b : ℚ) : ℚ := if b < 0 then -|a| else |a|

/-- Rational square root, exact on perfect squares of rationals in lowest
terms; returns 0 otherwise (see the header comment: only exact cases are
relied upon). -/
def ratSqrt (q : ℚ) : ℚ :=
  let n := Nat.sqrt q.num.toNat
  let d := Nat.sqrt q.den
  if q.num = (n : Int) * n ∧ q.den = d * d then (n : ℚ) / (d : ℚ) else 0

/-- `pygame.Vector2.normalize`. -/
def normalizeQ (v : ℚ × ℚ) : ℚ × ℚ :=
  let mag := ratSqrt (v.1 * v.1 + v.2 * v.2)
  (v.1 / mag, v.2 / mag)

/-- A tile as seen by the movement engine: its collider rectangle and
collidable flag (`Tile.collider`, `Tile.collidable`). -/
structure Obstacle where
  collider : Rect
  collidable : Bool
deriving DecidableEq, Repr

/-- An entity as seen by `MovingSprite._check_hit`: its hitbox and
vulnerability flag. -/
structure Ent where
  hitbox : Rect
  vulnerable : Bool
deriving DecidableEq, Repr

/-- The spatial state of a `MovingSprite`: `_pos`, `_collider`,
`_hitbox`. -/
structure Sp where
  pos : ℚ × ℚ
  collider : Rect
  hitbox : Rect
deriving DecidableEq, Repr

/-- The context a `MovingSprite` reaches through `self._game`:
`map.get_tiles_square(tile_pos)` (as a function of the sprite's tile
position), `_get_entities()` and `map.tile_size`. -/
structure Env where
  tiles : Int × Int → List Obstacle
  entities : List Ent
  tile_size : Int

/-- `MovingSprite.__init__`: collider from the image bounds at `pos`,
hitbox = collider inflated by `(-4, -4)`. -/
def mkMovingSprite (pos : ℚ × ℚ) (imgW imgH : Int) : Sp :=
  let col : Rect := { left := pyint pos.1, top := pyint pos.2,
                      width := imgW, height := imgH }
  { pos := pos, collider := col, hitbox := inflateRect col (-4) (-4) }

/-- The `pos` property setter of `MovingSprite`. -/
def setPos (s : Sp) (p : ℚ × ℚ) : Sp :=
  { pos := p,
    collider := { s.collider with left := pyint p.1, top := pyint p.2 },
    hitbox := { s.hitbox with left := pyint p.1, top := pyint p.2 } }

/-- The `tile_pos` property of `MovingSprite`. -/
def tile_pos (s : Sp) (tileSize : Int) : Int × Int :=
  (⌊s.pos.1 / (tileSize : ℚ)⌋, ⌊s.pos.2 / (tileSize : ℚ)⌋)

/-- `MovingSprite._get_obstacles`: query the map around the sprite's tile
position and keep the collidable tiles. -/
def get_obstacles (env : Env) (s : Sp) : List Obstacle :=
  (env.tiles (tile_pos s env.tile_size)).filter (·.collidable)

/-- `MovingSprite._check_hit`. -/
def check_hit (env : Env) (s : Sp) : Bool :=
  env.entities.any fun e => e.vulnerable && colliderect s.hitbox e.hitbox

inductive Axis where
  | horizontal
  | vertical
deriving DecidableEq, Repr

/-- The body of the `for tile in self._get_obstacles()` loop of
`MovingSprite.__colision`, horizontal case: on overlap, snap the collider
against the tile and copy `collider.left` back into `pos.x`. -/
def snapH (move_dir : ℚ × ℚ) (t : Obstacle) (s : Sp) : Sp × Bool :=
  if colliderect s.collider t.collider then
    if move_dir.1 > 0 then
      let col := { s.collider with left := t.collider.left - s.collider.width }
      (({ s with collider := col, pos := ((col.left : ℚ), s.pos.2) } : Sp), true)
    else if move_dir.1 < 0 then
      let col := { s.collider with left := t.collider.right }
      (({ s with collider := col, pos := ((col.left : ℚ), s.pos.2) } : Sp), true)
    else (s, false)
  else (s, false)

/-- The body of the same loop, vertical case (the source re-checks
`collidable` here, although `_get_obstacles` already filtered). -/
def snapV (move_dir : ℚ × ℚ) (t : Obstacle) (s : Sp) : Sp × Bool :=
  if t.collidable && colliderect s.collider t.collider then
    if move_dir.2 > 0 then
      let col := { s.collider with top := t.collider.top - s.collider.height }
      (({ s with collider := col, pos := (s.pos.1, (col.top : ℚ)) } : Sp), true)
    else if move_dir.2 < 0 then
      let col := { s.collider with top := t.collider.bottom }
      (({ s with collider := col, pos := (s.pos.1, (col.top : ℚ)) } : Sp), true)
    else (s, false)
  else (s, false)

/-- The `for tile in self._get_obstacles()` loop, horizontal case
(`collision` flag accumulated over the tiles, state threaded through). -/
def colisionH (move_dir : ℚ × ℚ) : List Obstacle → Sp → Sp × Bool
  | [], s => (s, false)
  | t :: ts, s =>
    let step := snapH move_dir t s
    let rest := colisionH move_dir ts step.1
    (rest.1, step.2 || rest.2)

/-- The same loop, vertical case. -/
def colisionV (move_dir : ℚ × ℚ) : List Obstacle → Sp → Sp × Bool
  | [], s => (s, false)
  | t :: ts, s =>
    let step := snapV move_dir t s
    let rest := colisionV move_dir ts step.1
    (rest.1, step.2 || rest.2)

/-- `MovingSprite.__colision`. -/
def colision (ax : Axis) (move_dir : ℚ × ℚ) (env : Env) (s : Sp) : Sp × Bool :=
  match ax with
  | .horizontal => colisionH move_dir (get_obstacles env s) s
  | .vertical => colisionV move_dir (get_obstacles env s) s

/-- The advance part of one horizontal sub-step of `MovingSprite._move`:
move `pos.x` by at most one hitbox width (or the rest of the distance if
smaller), then re-align collider and hitbox lefts to `round(pos.x)`.
Returns the advanced state and the new `distance_to_walk.x`. -/
def advX (dir : ℚ × ℚ) (stepx : ℚ) (s : Sp) (dtwx : ℚ) : Sp × ℚ :=
  let advanced :=
    if dtwx - stepx * |dir.1| < 0 then (s.pos.1 + copysignQ dtwx dir.1, (0 : ℚ))
    else (s.pos.1 + stepx * dir.1, dtwx - stepx * |dir.1|)
  let s1 : Sp := { s with pos := (advanced.1, s.pos.2) }
  (({ s1 with
    collider := { s1.collider with left := pyround s1.pos.1 },
    hitbox := { s1.hitbox with left := pyround s1.pos.1 } } : Sp), advanced.2)

/-- The advance part of one vertical sub-step. -/
def advY (dir : ℚ × ℚ) (stepy : ℚ) (s : Sp) (dtwy : ℚ) : Sp × ℚ :=
  let advanced :=
    if dtwy - stepy * |dir.2| < 0 then (s.pos.2 + copysignQ dtwy dir.2, (0 : ℚ))
    else (s.pos.2 + stepy * dir.2, dtwy - stepy * |dir.2|)
  let s1 : Sp := { s with pos := (s.pos.1, advanced.1) }
  (({ s1 with
    collider := { s1.collider with top := pyround s1.pos.2 },
    hitbox := { s1.hitbox with top := pyround s1.pos.2 } } : Sp), advanced.2)

/-- One horizontal sub-step of `MovingSprite._move` (advance, then
collision and hit tests; on either, zero the remaining x distance and
record the collision).  Returns the new state, the new
`distance_to_walk.x` and the new `collided` flag. -/
def moveStepX (env : Env) (dir : ℚ × ℚ) (stepx : ℚ) (s : Sp) (dtwx : ℚ)
    (collided : Bool) : Sp × ℚ × Bool :=
  let a := advX dir stepx s dtwx
  let col := colision .horizontal dir env a.1
  if col.2 || check_hit env col.1 then (col.1, 0, true)
  else (col.1, a.2, collided)

/-- One vertical sub-step of `MovingSprite._move`. -/
def moveStepY (env : Env) (dir : ℚ × ℚ) (stepy : ℚ) (s : Sp) (dtwy : ℚ)
    (collided : Bool) : Sp × ℚ × Bool :=
  let a := advY dir stepy s dtwy
  let col := colision .vertical dir env a.1
  if col.2 || check_hit env col.1 then (col.1, 0, true)
  else (col.1, a.2, collided)

/-- The `while distance_to_walk.magnitude() != 0` loop of
`MovingSprite._move`, with fuel.  Also returns the final
`distance_to_walk` (internal in the source, exposed here to state claims
about the remaining distance). -/
def moveLoop (env : Env) (dir : ℚ × ℚ) (step : ℚ × ℚ) :
    Nat → Sp → ℚ × ℚ → Bool → Sp × (ℚ × ℚ) × Bool
  | 0, s, dtw, c => (s, dtw, c)
  | fuel + 1, s, dtw, c =>
    if dtw.1 = 0 ∧ dtw.2 = 0 then (s, dtw, c)
    else
      let rx := if dtw.1 ≠ 0 then moveStepX env dir step.1 s dtw.1 c
                else (s, dtw.1, c)
      let ry := if dtw.2 ≠ 0 then moveStepY env dir step.2 rx.1 dtw.2 rx.2.2
                else (rx.1, dtw.2, rx.2.2)
      moveLoop env dir step fuel ry.1 (rx.2.1, ry.2.1) ry.2.2

/-- `MovingSprite._move`.  The source returns only the collision flag; the
model also returns the final state and remaining distance. -/
def move (env : Env) (s : Sp) (distance : ℚ) (direction : ℚ × ℚ)
    (fuel : Nat) : Sp × (ℚ × ℚ) × Bool :=
  let dir := if direction.1 * direction.1 + direction.2 * direction.2 > 0
             then normalizeQ direction else direction
  let dtw : ℚ × ℚ := (|dir.1 * distance|, |dir.2 * distance|)
  let step : ℚ × ℚ := ((s.hitbox.width : ℚ), (s.hitbox.height : ℚ))
  moveLoop env dir step fuel s dtw false

/-! ## Level grid (`scripts/map.py`, class `Map`) -/

/-- `TileCode` named tuple. -/
structure TileCode where
  type : String
  variation : Int
deriving DecidableEq, Repr

/-- A placed tile.  The source `Tile` also carries an image surface and a
collider derived from it via the per-type inflate/move tables; those
depend on loaded assets and are not needed by the grid claims, which are
about identity, code, flags and registration. -/
structure MTile where
  id : Nat
  pixel_pos : Int × Int
  code : TileCode
  collidable : Bool
  visible : Bool
deriving DecidableEq, Repr

inductive Plane where
  | foreground
  | background
deriving DecidableEq, Repr

/-- The state of a `Map`: the two tile matrices, the two plane sprite
groups (as lists of tile ids), and a fresh-id counter standing for Python
object identity. -/
structure MapState where
  width : Nat
  height : Nat
  tile_size : Int
  fg : List (List (Option MTile))
  bg : List (List (Option MTile))
  fgSet : List Nat
  bgSet : List Nat
  nextId : Nat
deriving Repr, DecidableEq

def MapState.mat (m : MapState) (plane : Plane) : List (List (Option MTile)) :=
  match plane with
  | .foreground => m.fg
  | .background => m.bg

/-- `Map.get_tile`. -/
def get_tile (m : MapState) (pos : Int × Int) (plane : Plane) :
    Except String (Option MTile) :=
  if !is_within_bounds pos.1 pos.2 m.width m.height then
    .error "IndexError: position not inside map"
  else
    .ok (gridGet none (m.mat plane) pos.1 pos.2)

/-- `Map.get_tiles_square` with a tuple radius (an `int` radius `r` is the
call with `(r, r)`).  Collects the non-empty tiles of the clipped square. -/
def get_tiles_square (m : MapState) (pos : Int × Int) (radius : Int × Int)
    (plane : Plane) : Except String (List MTile) :=
  if !is_within_bounds pos.1 pos.2 m.width m.height then
    .error "IndexError: position not inside map"
  else
    let x_min := pos.1 - radius.1
    let x_max := pos.1 + 1 + radius.1
    let y_min := pos.2 - radius.2
    let y_max := pos.2 + 1 + radius.2
    let xs := (List.range (x_max - x_min).toNat).map fun i => x_min + (i : Int)
    let ys := (List.range (y_max - y_min).toNat).map fun j => y_min + (j : Int)
    .ok <| xs.foldr (fun x acc =>
      (ys.foldr (fun y acc2 =>
        if is_within_bounds x y m.width m.height then
          match gridGet none (m.mat plane) x y with
          | some t => t :: acc2
          | none => acc2
        else acc2) []) ++ acc) []

/-- Key lookup in the graphics dictionary, modelled as a list of
`(tile type, number of loaded variations)` pairs. -/
def lookupG (g : List (String × Nat)) (key : String) : Option Nat :=
  (g.find? fun p => p.1 == key).map (·.2)

def MapState.insertTile (m : MapState) (pos : Int × Int) (plane : Plane)
    (t : MTile) : MapState :=
  match plane with
  | .foreground =>
    { m with fg := gridSet m.fg pos.1 pos.2 (some t),
             fgSet := t.id :: m.fgSet, nextId := m.nextId + 1 }
  | .background =>
    { m with bg := gridSet m.bg pos.1 pos.2 (some t),
             bgSet := t.id :: m.bgSet, nextId := m.nextId + 1 }

/-- `Map.place_tile`.  `graphics` models `self.__graphics` (variation
counts per type); `rchoice` models the `random.choice` draw.  The created
tile's code records the resolved variation (the index of the image chosen
from `graphics[type]`). -/
def place_tile (m : MapState) (pos : Int × Int) (tile_code : TileCode)
    (plane : Plane) (visible collidable : Bool)
    (graphics : List (String × Nat)) (rchoice : Nat) :
    Except String MapState :=
  if !is_within_bounds pos.1 pos.2 m.width m.height then
    .error "IndexError: position not inside map"
  else
    let pixel_pos := (pos.1 * m.tile_size, pos.2 * m.tile_size)
    if tile_code.type == "None" then .ok m
    else
      let code := if (lookupG graphics tile_code.type).isSome then tile_code
                  else ⟨"None", 0⟩
      match lookupG graphics code.type with
      | none => .error "KeyError: tile type not in graphics"
      | some n =>
        if 0 ≤ code.variation ∧ code.variation < (n : Int) then
          .ok (m.insertTile pos plane
            ⟨m.nextId, pixel_pos, ⟨code.type, code.variation⟩, collidable, visible⟩)
        else if n = 0 then .error "IndexError: random choice from empty list"
        else
          .ok (m.insertTile pos plane
            ⟨m.nextId, pixel_pos, ⟨code.type, ((rchoice % n : Nat) : Int)⟩,
             collidable, visible⟩)

/-- `Tile.kill()`: detach the tile from every group it belongs to. -/
def killTile (m : MapState) (tid : Nat) : MapState :=
  { m with fgSet := m.fgSet.filter (· ≠ tid), bgSet := m.bgSet.filter (· ≠ tid) }

/-- `Map.remove_tile`.  Note the matrix clear uses the source's
`matrix[pos[0]][pos[1]]` indexing (row `pos.x`, column `pos.y`), unlike
`get_tile`/`place_tile` which use `matrix[pos[1]][pos[0]]`. -/
def remove_tile (m : MapState) (pos : Int × Int) (plane : Plane) :
    Except String MapState :=
  if !is_within_bounds pos.1 pos.2 m.width m.height then
    .error "IndexError: position not inside map"
  else
    match gridGet none (m.mat plane) pos.1 pos.2 with
    | none => .ok m
    | some t =>
      let m1 := killTile m t.id
      match plane with
      | .foreground => .ok { m1 with fg := gridSet m1.fg pos.2 pos.1 none }
      | .background => .ok { m1 with bg := gridSet m1.bg pos.2 pos.1 none }

/-! ## Shared lemmas about grids and bounds -/

theorem is_within_bounds_iff {x y : Int} {w h : Nat} :
    is_within_bounds x y w h = true ↔ 0 ≤ x ∧ x < (w : Int) ∧ 0 ≤ y ∧ y < (h : Int) := by
  simp [is_within_bounds, and_assoc]

/-- The matrix has `h` rows of length `w` each. -/
def Shaped (m : List (List α)) (w h : Nat) : Prop :=
  m.length = h ∧ ∀ row ∈ m, row.length = w

theorem gridGet_eq (d : α) (m : List (List α)) (x y : Int) :
    gridGet d m x y =
      if 0 ≤ x ∧ 0 ≤ y then ((m[y.toNat]?.getD [])[x.toNat]?).getD d else d := by
  unfold gridGet
  rw [List.getD_eq_getElem?_getD, List.getD_eq_getElem?_getD]

theorem gridSet_eq (m : List (List α)) (x y : Int) (c : α) :
    gridSet m x y c =
      if 0 ≤ x ∧ 0 ≤ y then m.set y.toNat ((m[y.toNat]?.getD []).set x.toNat c)
      else m := by
  unfold gridSet
  rw [List.getD_eq_getElem?_getD]

theorem gridSet_shaped {m : List (List α)} {w h : Nat} (hs : Shaped m w h)
    (x y : Int) (c : α) : Shaped (gridSet m x y c) w h := by
  rw [gridSet_eq]
  split
  · by_cases hlen : y.toNat < m.length
    · refine ⟨by simpa [List.length_set] using hs.1, fun row hrow => ?_⟩
      rcases List.mem_or_eq_of_mem_set hrow with hmem | rfl
      · exact hs.2 _ hmem
      · rw [List.length_set, List.getElem?_eq_getElem hlen]
        simp only [Option.getD_some]
        exact hs.2 _ (List.getElem_mem hlen)
    · rw [List.set_eq_of_length_le (by omega)]
      exact hs
  · exact hs

theorem gridGet_gridSet_ne {m : List (List α)} {d : α} {x y x' y' : Int} {c : α}
    (hne : (x', y') ≠ (x, y)) :
    gridGet d (gridSet m x y c) x' y' = gridGet d m x' y' := by
  rw [gridGet_eq, gridGet_eq, gridSet_eq]
  by_cases hxy : 0 ≤ x ∧ 0 ≤ y
  · rw [if_pos hxy]
    by_cases hxy' : 0 ≤ x' ∧ 0 ≤ y'
    · rw [if_pos hxy', if_pos hxy']
      by_cases hyy : y'.toNat = y.toNat
      · have hy : y' = y := by omega
        have hx : x' ≠ x := fun hx => hne (by simp [hx, hy])
        have hxx : x'.toNat ≠ x.toNat := by omega
        subst hy
        by_cases hlen : y'.toNat < m.length
        · rw [List.getElem?_set_self hlen]
          simp only [Option.getD_some]
          rw [List.getElem?_set_ne (Ne.symm hxx)]
        · rw [List.set_eq_of_length_le (by omega)]
      · rw [List.getElem?_set_ne (fun hcl => hyy hcl.symm)]
    · rw [if_neg hxy', if_neg hxy']
  · rw [if_neg hxy]

theorem gridGet_gridSet_self {m : List (List α)} {d : α} {x y : Int} {c : α}
    {w h : Nat} (hs : Shaped m w h) (hb : is_within_bounds x y w h = true) :
    gridGet d (gridSet m x y c) x y = c := by
  obtain ⟨hx0, hxw, hy0, hyh⟩ := is_within_bounds_iff.1 hb
  have hylt : y.toNat < m.length := by rw [hs.1]; omega
  have hrow : m[y.toNat]?.getD [] ∈ m := by
    rw [List.getElem?_eq_getElem hylt]
    exact List.getElem_mem hylt
  have hxlt : x.toNat < (m[y.toNat]?.getD []).length := by
    have hlw := hs.2 _ hrow
    exact Nat.lt_of_lt_of_le (by omega) hlw.ge
  rw [gridGet_eq, gridSet_eq]
  rw [if_pos ⟨hx0, hy0⟩, if_pos ⟨hx0, hy0⟩]
  rw [List.getElem?_set_self hylt]
  simp only [Option.getD_some]
  rw [List.getElem?_set_self hxlt]
  simp

theorem gridGet_replicate {w h : Nat} {d c : α} (x y : Int) :
    gridGet d (List.replicate h (List.replicate w c)) x y =
      if 0 ≤ x ∧ x < (w : Int) ∧ 0 ≤ y ∧ y < (h : Int) then c else d := by
  rw [gridGet_eq]
  by_cases hxy : 0 ≤ x ∧ 0 ≤ y
  · rw [if_pos hxy]
    by_cases hy : y.toNat < h
    · rw [List.getElem?_replicate_of_lt hy]
      simp only [Option.getD_some]
      by_cases hx : x.toNat < w
      · rw [List.getElem?_replicate_of_lt hx]
        simp only [Option.getD_some]
        rw [if_pos ⟨hxy.1, by omega, hxy.2, by omega⟩]
      · have hnone : (List.replicate w c)[x.toNat]? = none :=
          List.getElem?_eq_none (by simp only [List.length_replicate]; omega)
        rw [hnone]
        simp only [Option.getD_none]
        rw [if_neg (by omega)]
    · have hnone : (List.replicate h (List.replicate w c))[y.toNat]? = none :=
        List.getElem?_eq_none (by simp only [List.length_replicate]; omega)
      rw [hnone]
      simp only [Option.getD_none, List.getElem?_nil]
      rw [if_neg (by omega)]
  · rw [if_neg hxy, if_neg (by omega)]

/-! ## C7: zero distance / zero direction moves are no-ops -/

theorem moveLoop_zero (env : Env) (dir step : ℚ × ℚ) (fuel : Nat) (s : Sp)
    (c : Bool) : moveLoop env dir step fuel s 0 c = (s, 0, c) := by
  cases fuel <;> simp [moveLoop]

/-- C7: for every actor, calling `_move` with distance 0, or with a
direction vector of zero magnitude, changes nothing (position, collider
and hitbox are all unchanged since the returned state is the input
state), raises no error, and returns false. -/
theorem move_zero_is_noop (env : Env) (s : Sp) (fuel : Nat) :
    (∀ direction : ℚ × ℚ, move env s 0 direction fuel = (s, (0, 0), false)) ∧
    (∀ distance : ℚ, move env s distance (0, 0) fuel = (s, (0, 0), false)) := by
  constructor
  · intro d
    unfold move
    split <;> simp [moveLoop_zero]
  · intro dist
    unfold move
    rw [if_neg (by norm_num)]
    simp [moveLoop_zero]

deriving instance DecidableEq for Except

/-! ## C6: the hitbox inset is not preserved by position updates -/

/-- C6 counterexample: construction establishes the hitbox inset by the
fixed margin 2 (from `inflate((-4, -4))`), but a single `pos` setter call
moves the hitbox topleft onto the collider topleft, so the inset-by-margin
invariant claimed to be "preserved by every position update" is already
destroyed by the first setter call. -/
theorem pos_setter_breaks_hitbox_inset :
    (mkMovingSprite (0, 0) 16 16).hitbox.left =
      (mkMovingSprite (0, 0) 16 16).collider.left + 2 ∧
    (mkMovingSprite (0, 0) 16 16).hitbox.top =
      (mkMovingSprite (0, 0) 16 16).collider.top + 2 ∧
    (setPos (mkMovingSprite (0, 0) 16 16) (5, 5)).hitbox.left =
      (setPos (mkMovingSprite (0, 0) 16 16) (5, 5)).collider.left ∧
    (setPos (mkMovingSprite (0, 0) 16 16) (5, 5)).hitbox.left ≠
      (setPos (mkMovingSprite (0, 0) 16 16) (5, 5)).collider.left + 2 := by
  decide

/-- C6 amended: position, collider and hitbox do move in lockstep under
the `pos` setter, but with the collider topleft and the hitbox topleft
both set to the integer part of the new position (the hitbox is flush
with the collider's top-left corner, not inset); rectangle sizes are
unchanged.  The inset by the fixed margin holds only at construction. -/
theorem setPos_lockstep_topleft (s : Sp) (p : ℚ × ℚ) :
    (setPos s p).pos = p ∧
    (setPos s p).collider.left = pyint p.1 ∧
    (setPos s p).collider.top = pyint p.2 ∧
    (setPos s p).hitbox.left = pyint p.1 ∧
    (setPos s p).hitbox.top = pyint p.2 ∧
    (setPos s p).collider.width = s.collider.width ∧
    (setPos s p).collider.height = s.collider.height ∧
    (setPos s p).hitbox.width = s.hitbox.width ∧
    (setPos s p).hitbox.height = s.hitbox.height := by
  exact ⟨rfl, rfl, rfl, rfl, rfl, rfl, rfl, rfl, rfl⟩

/-! ## C2: the smoother's neighbour count -/

/-- A maze whose only wall neighbour of the interior cell `(1, 1)` is the
south-west cell `(0, 2)`. -/
def c2Maze : Maze :=
  [[Cell.air, Cell.air, Cell.air],
   [Cell.air, Cell.air, Cell.air],
   [Cell.wall, Cell.air, Cell.air]]

/-- C2: the smoother's neighbour count is NOT taken over all eight
distinct neighbours.  At cell `(1, 1)` of `c2Maze` the south-west
neighbour `(0, 2)` is a wall, so the true 8-neighbourhood count (`count8`,
taken from the spec's words) is 1 wall / 7 open; the source's
`adjacent_directions` list repeats `(0, -1)` (west) and omits `(1, -1)`
(south-west), so the code counts 0 walls / 8 open. -/
theorem smoother_count_misses_southwest_neighbor :
    countNeighbors c2Maze 1 1 3 3 = (0, 8) ∧
    count8 c2Maze 1 1 3 3 = (1, 7) ∧
    mget c2Maze 0 2 = Cell.wall := by
  decide

/-! ## C3: remove_tile clears the transposed matrix cell -/

def c3Tile : MTile := ⟨0, (16, 0), ⟨"wall", 0⟩, true, true⟩

/-- A 2x2 map with a single foreground tile at `(x, y) = (1, 0)`. -/
def c3Map : MapState :=
  ⟨2, 2, 16,
   [[none, some c3Tile], [none, none]],
   [[none, none], [none, none]],
   [0], [], 1⟩

/-- C3: evaluation at the failing input.  `remove_tile` at `(1, 0)`
detaches the tile from the foreground set, but clears matrix cell
`[pos.x][pos.y]` instead of `[pos.y][pos.x]`, so a subsequent `get_tile`
at `(1, 0)` still returns the tile: the claim's "a subsequent get_tile
returns no tile at p" fails on the code. -/
theorem remove_tile_leaves_tile_at_pos :
    remove_tile c3Map (1, 0) Plane.foreground =
      Except.ok { c3Map with fgSet := [] } ∧
    (remove_tile c3Map (1, 0) Plane.foreground).map
      (fun m => get_tile m (1, 0) Plane.foreground) =
      Except.ok (Except.ok (some c3Tile)) := by
  decide

/-! ## C8: out-of-bounds grid operations raise -/

/-- C8: every grid operation called with a position outside
`[0, width) x [0, height)` surfaces an out-of-bounds error (the position
is never clamped, and no state is returned, so the grid is unchanged). -/
theorem out_of_bounds_ops_error (m : MapState) (pos : Int × Int)
    (radius : Int × Int) (plane : Plane) (code : TileCode)
    (vis col : Bool) (graphics : List (String × Nat)) (rchoice : Nat)
    (h : is_within_bounds pos.1 pos.2 m.width m.height = false) :
    (∃ e, get_tile m pos plane = .error e) ∧
    (∃ e, get_tiles_square m pos radius plane = .error e) ∧
    (∃ e, place_tile m pos code plane vis col graphics rchoice = .error e) ∧
    (∃ e, remove_tile m pos plane = .error e) := by
  refine ⟨⟨"IndexError: position not inside map", ?_⟩,
    ⟨"IndexError: position not inside map", ?_⟩,
    ⟨"IndexError: position not inside map", ?_⟩,
    ⟨"IndexError: position not inside map", ?_⟩⟩ <;>
    simp [get_tile, get_tiles_square, place_tile, remove_tile, h]

def c8Map : MapState :=
  ⟨2, 2, 16, [[none, none], [none, none]], [[none, none], [none, none]],
   [], [], 0⟩

theorem out_of_bounds_ops_error_witness :
    (∃ e, get_tile c8Map (-1, 0) Plane.foreground = .error e) ∧
    (∃ e, get_tiles_square c8Map (-1, 0) (1, 1) Plane.foreground = .error e) ∧
    (∃ e, place_tile c8Map (-1, 0) ⟨"wall", 0⟩ Plane.foreground true false
      [("wall", 4)] 0 = .error e) ∧
    (∃ e, remove_tile c8Map (-1, 0) Plane.foreground = .error e) :=
  out_of_bounds_ops_error c8Map (-1, 0) (1, 1) Plane.foreground ⟨"wall", 0⟩
    true false [("wall", 4)] 0 (by decide)

/-! ## C4: unknown tile types -/

def c4Map : MapState :=
  ⟨2, 2, 16, [[none, none], [none, none]], [[none, none], [none, none]],
   [], [], 0⟩

/-- The graphics table of the game: the `"None"` key holds the images
found directly in the tiles directory (`graphics["tiles"]["None"]` is
referenced by `game.py`, so it is present and non-empty). -/
def c4Graphics : List (String × Nat) := [("wall", 4), ("None", 1)]

/-- C4 counterexample: placing an unrecognized type code at an in-bounds
empty cell creates a tile (carrying the substituted `("None", 0)` code)
and stores it in the cell, so the claim's "no tile is created, and the
grid cell is left empty" is false. -/
theorem place_unknown_type_cell_not_empty :
    (place_tile c4Map (0, 0) ⟨"bogus", 7⟩ Plane.foreground true false
        c4Graphics 0).map (fun m => get_tile m (0, 0) Plane.foreground) =
      Except.ok (Except.ok (some ⟨0, (0, 0), ⟨"None", 0⟩, false, true⟩)) := by
  decide

/-- C4 amended: for every in-bounds position and tile code whose type is
not a recognized tile type (and is not literally `"None"`), `place_tile`
substitutes the `("None", 0)` code -- but that substitution happens after
the early no-op check for `"None"` codes, so a tile bearing the fallback
`"None"` graphic is still created and placed in the cell (provided the
graphics table has a non-empty `"None"` entry, as the game's does): no
error is raised, but the observable outcome differs from placing a
`"None"` code, which leaves the cell empty. -/
theorem place_unknown_type_places_fallback_tile (m : MapState)
    (pos : Int × Int) (plane : Plane) (code : TileCode) (vis col : Bool)
    (graphics : List (String × Nat)) (rchoice : Nat) (n : Nat)
    (hb : is_within_bounds pos.1 pos.2 m.width m.height = true)
    (hshape : Shaped (m.mat plane) m.width m.height)
    (hnotype : lookupG graphics code.type = none)
    (hnone : lookupG graphics "None" = some n) (hn : 0 < n)
    (hne : code.type ≠ "None") :
    ∃ (m' : MapState) (t : MTile),
      place_tile m pos code plane vis col graphics rchoice = .ok m' ∧
      t.code = ⟨"None", 0⟩ ∧
      get_tile m' pos plane = .ok (some t) := by
  have hbeq : (code.type == "None") = false := by
    simp [hne]
  have hsome : (lookupG graphics code.type).isSome = false := by
    rw [hnotype]; rfl
  refine ⟨m.insertTile pos plane
      ⟨m.nextId, (pos.1 * m.tile_size, pos.2 * m.tile_size), ⟨"None", 0⟩,
        col, vis⟩,
    ⟨m.nextId, (pos.1 * m.tile_size, pos.2 * m.tile_size), ⟨"None", 0⟩,
      col, vis⟩, ?_, rfl, ?_⟩
  · unfold place_tile
    rw [hb]
    simp only [Bool.not_true, Bool.false_eq_true, if_false, hbeq, hsome,
      if_false]
    rw [hnone]
    simp only
    rw [if_pos ⟨le_refl 0, by exact_mod_cast hn⟩]
  · have hmat : (m.insertTile pos plane
        ⟨m.nextId, (pos.1 * m.tile_size, pos.2 * m.tile_size), ⟨"None", 0⟩,
          col, vis⟩).mat plane
        = gridSet (m.mat plane) pos.1 pos.2
            (some ⟨m.nextId, (pos.1 * m.tile_size, pos.2 * m.tile_size),
              ⟨"None", 0⟩, col, vis⟩) := by
      cases plane <;> rfl
    have hwidth : (m.insertTile pos plane
        ⟨m.nextId, (pos.1 * m.tile_size, pos.2 * m.tile_size), ⟨"None", 0⟩,
          col, vis⟩).width = m.width := by
      cases plane <;> rfl
    have hheight : (m.insertTile pos plane
        ⟨m.nextId, (pos.1 * m.tile_size, pos.2 * m.tile_size), ⟨"None", 0⟩,
          col, vis⟩).height = m.height := by
      cases plane <;> rfl
    unfold get_tile
    rw [hwidth, hheight, hb]
    simp only [Bool.not_true, Bool.false_eq_true, if_false]
    rw [hmat, gridGet_gridSet_self hshape hb]

theorem place_unknown_type_places_fallback_tile_witness :
    ∃ (m' : MapState) (t : MTile),
      place_tile c4Map (1, 0) ⟨"bogus", 7⟩ Plane.background true false
        c4Graphics 0 = .ok m' ∧
      t.code = ⟨"None", 0⟩ ∧
      get_tile m' (1, 0) Plane.background = .ok (some t) :=
  place_unknown_type_places_fallback_tile c4Map (1, 0) Plane.background
    ⟨"bogus", 7⟩ true false c4Graphics 0 1 (by decide)
    ⟨rfl, by decide⟩ (by decide) (by decide) (by decide) (by decide)

/-! ## C1 and C5: what a blocked or hit move does -/

theorem snapH_not_collided (mdir : ℚ × ℚ) (t : Obstacle) (s : Sp)
    (h : (snapH mdir t s).2 = false) : (snapH mdir t s).1 = s := by
  unfold snapH at h ⊢
  split_ifs at h ⊢ <;> simp_all

theorem snapH_collided (mdir : ℚ × ℚ) (hm : mdir.1 > 0) (t : Obstacle) (s : Sp)
    (h : (snapH mdir t s).2 = true) :
    (snapH mdir t s).1.collider.right = t.collider.left ∧
    (snapH mdir t s).1.pos.1 = (((snapH mdir t s).1.collider.left : Int) : ℚ) := by
  unfold snapH at h ⊢
  split_ifs at h ⊢
  exact ⟨by
    show t.collider.left - s.collider.width + s.collider.width = t.collider.left
    omega, rfl⟩

theorem colisionH_not_collided (mdir : ℚ × ℚ) :
    ∀ (ts : List Obstacle) (s : Sp), (colisionH mdir ts s).2 = false →
      (colisionH mdir ts s).1 = s := by
  intro ts
  induction ts with
  | nil => intro s _; rfl
  | cons t ts ih =>
    intro s h
    simp only [colisionH] at h ⊢
    obtain ⟨hs, hr⟩ := Bool.or_eq_false_iff.mp h
    rw [snapH_not_collided mdir t s hs] at hr ⊢
    exact ih s hr

theorem colisionH_collided (mdir : ℚ × ℚ) (hm : mdir.1 > 0) :
    ∀ (ts : List Obstacle) (s : Sp), (colisionH mdir ts s).2 = true →
      ∃ t ∈ ts, (colisionH mdir ts s).1.collider.right = t.collider.left ∧
        (colisionH mdir ts s).1.pos.1 =
          (((colisionH mdir ts s).1.collider.left : Int) : ℚ) := by
  intro ts
  induction ts with
  | nil => intro s h; exact absurd h (by simp [colisionH])
  | cons t ts ih =>
    intro s h
    simp only [colisionH] at h ⊢
    rcases hr : (colisionH mdir ts (snapH mdir t s).1).2 with _ | _
    · rw [hr, Bool.or_false] at h
      rw [colisionH_not_collided mdir ts (snapH mdir t s).1 hr]
      obtain ⟨hflush, hpos⟩ := snapH_collided mdir hm t s h
      exact ⟨t, List.mem_cons_self t ts, hflush, hpos⟩
    · obtain ⟨u, hu, hflush, hpos⟩ := ih (snapH mdir t s).1 hr
      exact ⟨u, List.mem_cons_of_mem t hu, hflush, hpos⟩

/-- The actor's collider is flush against some nearby collidable tile on
the right, and `pos.x` equals `collider.left`. -/
def SnappedRight (env : Env) (s : Sp) : Prop :=
  ∃ (tp : Int × Int) (t : Obstacle), t ∈ env.tiles tp ∧ t.collidable = true ∧
    s.collider.right = t.collider.left ∧
    s.pos.1 = ((s.collider.left : Int) : ℚ)

/-- The collider's left edge sits at the rounding of `pos.x` (i.e. the
collider was not moved away from the position by a snap). -/
def Aligned (s : Sp) : Prop := s.collider.left = pyround s.pos.1

theorem check_hit_no_entities (env : Env) (hents : env.entities = [])
    (s : Sp) : check_hit env s = false := by
  unfold check_hit
  rw [hents]
  rfl

theorem moveStepX_unitX (env : Env) (hents : env.entities = [])
    (stpx : ℚ) (s : Sp) (dtwx : ℚ)
    (h : (moveStepX env (1, 0) stpx s dtwx false).2.2 = true) :
    (moveStepX env (1, 0) stpx s dtwx false).2.1 = 0 ∧
    SnappedRight env (moveStepX env (1, 0) stpx s dtwx false).1 := by
  have hch := check_hit_no_entities env hents
  by_cases hcol :
      (colision Axis.horizontal (1, 0) env (advX (1, 0) stpx s dtwx).1).2 = true
  · simp only [moveStepX, hch, Bool.or_false, hcol, if_true]
    refine ⟨by simp, ?_⟩
    simp only [colision] at hcol ⊢
    obtain ⟨t, ht, hflush, hpos⟩ :=
      colisionH_collided (1, 0) (by norm_num) _ _ hcol
    obtain ⟨hmem, hcoll⟩ := List.mem_filter.mp ht
    exact ⟨_, t, hmem, hcoll, hflush, hpos⟩
  · rw [Bool.not_eq_true] at hcol
    simp only [moveStepX, hch, Bool.or_false, hcol, Bool.false_eq_true,
      if_false] at h

theorem moveStepX_noTiles (env : Env) (htiles : ∀ tp, env.tiles tp = [])
    (stpx : ℚ) (s : Sp) (dtwx : ℚ)
    (h : (moveStepX env (1, 0) stpx s dtwx false).2.2 = true) :
    (moveStepX env (1, 0) stpx s dtwx false).2.1 = 0 ∧
    Aligned (moveStepX env (1, 0) stpx s dtwx false).1 := by
  have hobs : ∀ s' : Sp, get_obstacles env s' = [] := by
    intro s'; unfold get_obstacles; rw [htiles]; rfl
  have hcol : colision Axis.horizontal (1, 0) env (advX (1, 0) stpx s dtwx).1 =
      ((advX (1, 0) stpx s dtwx).1, false) := by
    simp only [colision, hobs, colisionH]
  by_cases hhit : check_hit env (advX (1, 0) stpx s dtwx).1 = true
  · simp only [moveStepX, hcol, hhit, Bool.false_or, if_true]
    refine ⟨by simp, ?_⟩
    show (advX (1, 0) stpx s dtwx).1.collider.left =
      pyround (advX (1, 0) stpx s dtwx).1.pos.1
    unfold advX
    rfl
  · rw [Bool.not_eq_true] at hhit
    simp only [moveStepX, hcol, hhit, Bool.false_or, Bool.false_eq_true,
      if_false] at h

/-- Generic invariant lemma for the horizontal-only loop: if a flag-true
x-sub-step always zeroes the remaining x distance and establishes `P`,
then a flag-true loop run ends with zero remaining x distance and `P`. -/
theorem moveLoop_unitX_inv (env : Env) (P : Sp → Prop) (stp : ℚ × ℚ)
    (hstep : ∀ s dtwx, (moveStepX env (1, 0) stp.1 s dtwx false).2.2 = true →
      (moveStepX env (1, 0) stp.1 s dtwx false).2.1 = 0 ∧
      P (moveStepX env (1, 0) stp.1 s dtwx false).1) :
    ∀ (fuel : Nat) (s : Sp) (dtwx : ℚ) (c : Bool),
      (c = true → dtwx = 0 ∧ P s) →
      (moveLoop env (1, 0) stp fuel s (dtwx, 0) c).2.2 = true →
      (moveLoop env (1, 0) stp fuel s (dtwx, 0) c).2.1.1 = 0 ∧
      P (moveLoop env (1, 0) stp fuel s (dtwx, 0) c).1 := by
  intro fuel
  induction fuel with
  | zero =>
    intro s dtwx c hinv h
    simp only [moveLoop] at h ⊢
    exact ⟨(hinv h).1, (hinv h).2⟩
  | succ n ih =>
    intro s dtwx c hinv h
    simp only [moveLoop] at h ⊢
    by_cases hz : dtwx = 0
    · rw [if_pos ⟨hz, trivial⟩] at h ⊢
      exact ⟨hz, (hinv h).2⟩
    · rw [if_neg (fun hc => hz hc.1)] at h ⊢
      have hc : c = false := by
        cases c
        · rfl
        · exact absurd (hinv rfl).1 hz
      subst hc
      rw [if_pos hz] at h ⊢
      rw [if_neg (by simp : ¬ ((0 : ℚ) ≠ 0))] at h ⊢
      exact ih _ _ _ (hstep s dtwx) h

theorem normalizeQ_unitX : normalizeQ (1, 0) = (1, 0) := by
  norm_num [normalizeQ, ratSqrt]

theorem move_unitX (env : Env) (s : Sp) (dist : ℚ) (fuel : Nat) :
    move env s dist (1, 0) fuel =
      moveLoop env (1, 0) ((s.hitbox.width : ℚ), (s.hitbox.height : ℚ))
        fuel s (|dist|, 0) false := by
  unfold move
  rw [if_pos (by norm_num : ((1, 0) : ℚ × ℚ).1 * (1, 0).1 + ((1, 0) : ℚ × ℚ).2 * (1, 0).2 > 0)]
  rw [normalizeQ_unitX]
  norm_num

/-- C1 amended: when a rightward move is blocked by a collidable tile
(the call returned true and no dynamic-target hit was possible because
the entity set is empty), the actor is snapped flush against a nearby
collidable tile at its COLLIDER: `collider.right = tile.collider.left`
and `pos.x = collider.left`, and the remaining distance on the axis is
zero.  It is the collider, not the hitbox, that ends flush: the snap
never re-synchronizes the hitbox, which can be left overlapping the tile
(see the counterexample). -/
theorem move_blocked_snaps_collider_flush (env : Env) (s : Sp) (dist : ℚ)
    (fuel : Nat) (hents : env.entities = [])
    (h : (move env s dist (1, 0) fuel).2.2 = true) :
    (move env s dist (1, 0) fuel).2.1.1 = 0 ∧
    SnappedRight env (move env s dist (1, 0) fuel).1 := by
  rw [move_unitX] at h ⊢
  exact moveLoop_unitX_inv env (SnappedRight env) _
    (fun s' d' => moveStepX_unitX env hents _ s' d') fuel s |dist| false
    (by simp) h

def probeSprite : Sp := mkMovingSprite (0, 0) 16 16

def c1Wall : Obstacle := ⟨⟨32, 0, 16, 16⟩, true⟩

def c1Env : Env := ⟨fun _ => [c1Wall], [], 16⟩

set_option maxHeartbeats 1600000 in
/-- C1 counterexample: a 16x16 actor at the origin moving right 1000
pixels against a collidable tile whose collider is `[32, 48) x [0, 16)`.
The move returns true and the collider ends flush
(`collider.right = 32`), but the actor's HITBOX is left at `[24, 36)`,
overlapping the tile's collider instead of lying flush against it -- the
snap updates `pos` and the collider but never the hitbox. -/
theorem move_blocked_hitbox_overlaps :
    (move c1Env probeSprite 1000 (1, 0) 5).2.2 = true ∧
    (move c1Env probeSprite 1000 (1, 0) 5).1.collider.right =
      c1Wall.collider.left ∧
    colliderect (move c1Env probeSprite 1000 (1, 0) 5).1.hitbox
      c1Wall.collider = true ∧
    (move c1Env probeSprite 1000 (1, 0) 5).1.hitbox.right ≠
      c1Wall.collider.left := by
  refine ⟨?_, ?_, ?_, ?_⟩
  all_goals rw [move_unitX]
  all_goals norm_num [moveLoop, moveStepX, moveStepY, advX, advY, colision,
    get_obstacles, tile_pos, colisionH, colisionV, snapH, snapV, check_hit,
    colliderect, copysignQ, pyround, probeSprite, c1Env, c1Wall,
    mkMovingSprite, inflateRect, pyint, Rect.right, Rect.bottom]

set_option maxHeartbeats 1600000 in
theorem move_blocked_snaps_collider_flush_witness :
    (move c1Env probeSprite 1000 (1, 0) 5).2.1.1 = 0 ∧
    SnappedRight c1Env (move c1Env probeSprite 1000 (1, 0) 5).1 :=
  move_blocked_snaps_collider_flush c1Env probeSprite 1000 5 rfl (by
    rw [move_unitX]
    norm_num [moveLoop, moveStepX, moveStepY, advX, advY, colision,
      get_obstacles, tile_pos, colisionH, colisionV, snapH, snapV, check_hit,
      colliderect, copysignQ, pyround, probeSprite, c1Env, c1Wall,
      mkMovingSprite, inflateRect, pyint, Rect.right, Rect.bottom])

/-- C5 amended: a dynamic-target hit with no possible tile collision (the
tile provider returns no tiles at all) records a collision (hypothesis:
the call returned true) AND zeroes the remaining distance on the axis,
stopping further motion on that axis; unlike a tile collision it does not
snap the actor back (the collider stays at the rounding of the advanced
position). -/
theorem hit_zeroes_remaining_distance (env : Env) (s : Sp) (dist : ℚ)
    (fuel : Nat) (htiles : ∀ tp, env.tiles tp = [])
    (h : (move env s dist (1, 0) fuel).2.2 = true) :
    (move env s dist (1, 0) fuel).2.1.1 = 0 ∧
    Aligned (move env s dist (1, 0) fuel).1 := by
  rw [move_unitX] at h ⊢
  exact moveLoop_unitX_inv env Aligned _
    (fun s' d' => moveStepX_noTiles env htiles _ s' d') fuel s |dist| false
    (by simp) h

def c5Ent : Ent := ⟨⟨20, 2, 12, 12⟩, true⟩

def c5Env : Env := ⟨fun _ => [], [c5Ent], 16⟩

set_option maxHeartbeats 1600000 in
/-- C5 counterexample: with no tiles anywhere and one vulnerable entity
whose hitbox is `[20, 32) x [2, 14)`, the 16x16 actor at the origin asked
to move 30 pixels right stops after its first 12-pixel sub-step (hitbox
overlap with the entity): the move returns true and the remaining
distance on the axis IS zeroed by the hit alone (final `pos.x = 12`, not
30), contradicting the claim that a hit does not zero the remaining
distance. -/
theorem hit_alone_zeroes_distance_counterexample :
    (move c5Env probeSprite 30 (1, 0) 5).2.2 = true ∧
    (move c5Env probeSprite 30 (1, 0) 5).2.1.1 = 0 ∧
    (move c5Env probeSprite 30 (1, 0) 5).1.pos.1 = 12 := by
  refine ⟨?_, ?_, ?_⟩
  all_goals rw [move_unitX]
  all_goals norm_num [moveLoop, moveStepX, moveStepY, advX, advY, colision,
    get_obstacles, tile_pos, colisionH, colisionV, snapH, snapV, check_hit,
    colliderect, copysignQ, pyround, probeSprite, c5Env, c5Ent,
    mkMovingSprite, inflateRect, pyint, Rect.right, Rect.bottom]

set_option maxHeartbeats 1600000 in
theorem hit_zeroes_remaining_distance_witness :
    (move c5Env probeSprite 30 (1, 0) 5).2.1.1 = 0 ∧
    Aligned (move c5Env probeSprite 30 (1, 0) 5).1 :=
  hit_zeroes_remaining_distance c5Env probeSprite 30 5 (fun _ => rfl)
    (by
    rw [move_unitX]
    norm_num [moveLoop, moveStepX, moveStepY, advX, advY, colision,
      get_obstacles, tile_pos, colisionH, colisionV, snapH, snapV, check_hit,
      colliderect, copysignQ, pyround, probeSprite, c5Env, c5Ent,
      mkMovingSprite, inflateRect, pyint, Rect.right, Rect.bottom])

/-! ## C9: the border stays wall through carving and smoothing -/

/-- `(x, y)` lies strictly inside the border frame of a `W x H` grid with
border thickness `b`. -/
def InteriorPt (W H b : Nat) (x y : Int) : Prop :=
  (b : Int) ≤ x ∧ x < (W : Int) - b ∧ (b : Int) ≤ y ∧ y < (H : Int) - b

theorem mget_out {m : Maze} {w h : Nat} (hs : Shaped m w h) {x y : Int}
    (hout : x < 0 ∨ y < 0 ∨ (w : Int) ≤ x ∨ (h : Int) ≤ y) :
    mget m x y = Cell.wall := by
  unfold mget
  rw [gridGet_eq]
  by_cases hxy : 0 ≤ x ∧ 0 ≤ y
  · rw [if_pos hxy]
    by_cases hylt : y.toNat < m.length
    · have hrow : m[y.toNat]?.getD [] ∈ m := by
        rw [List.getElem?_eq_getElem hylt]
        exact List.getElem_mem hylt
      have hlen := hs.2 _ hrow
      have hx : ¬ x.toNat < (m[y.toNat]?.getD []).length := by
        rw [hlen]
        have := hs.1
        omega
      have hnone : (m[y.toNat]?.getD [])[x.toNat]? = none :=
        List.getElem?_eq_none (by omega)
      rw [hnone]
      rfl
    · have hnone : m[y.toNat]? = none := List.getElem?_eq_none (by omega)
      rw [hnone]
      simp
  · rw [if_neg hxy]

theorem set_row_shaped {m : Maze} {w h : Nat} (hs : Shaped m w h) (n : Nat) :
    Shaped (m.set n (List.replicate w Cell.wall)) w h := by
  refine ⟨by simpa [List.length_set] using hs.1, fun row hrow => ?_⟩
  rcases List.mem_or_eq_of_mem_set hrow with hmem | rfl
  · exact hs.2 _ hmem
  · simp

theorem mget_set_row_self {m : Maze} {w h : Nat} (hs : Shaped m w h)
    {n : Nat} (hn : n < h) (x : Int) :
    mget (m.set n (List.replicate w Cell.wall)) x (n : Int) = Cell.wall := by
  unfold mget
  rw [gridGet_eq]
  by_cases hx : 0 ≤ x
  · rw [if_pos ⟨hx, Int.ofNat_nonneg n⟩]
    have hlen : n < m.length := by rw [hs.1]; omega
    have : ((n : Int)).toNat = n := by omega
    rw [this, List.getElem?_set_self hlen]
    simp only [Option.getD_some]
    by_cases hxw : x.toNat < w
    · rw [List.getElem?_replicate_of_lt hxw]
      rfl
    · have hnone : (List.replicate w Cell.wall)[x.toNat]? = none :=
        List.getElem?_eq_none (by simp only [List.length_replicate]; omega)
      rw [hnone]
      rfl
  · rw [if_neg (fun hc => hx hc.1)]

theorem mget_set_row_ne {m : Maze} (n : Nat) (r : List Cell) {x y : Int}
    (hy : y ≠ (n : Int)) : mget (m.set n r) x y = mget m x y := by
  unfold mget
  rw [gridGet_eq, gridGet_eq]
  by_cases hxy : 0 ≤ x ∧ 0 ≤ y
  · rw [if_pos hxy, if_pos hxy]
    rw [List.getElem?_set_ne (by omega)]
  · rw [if_neg hxy, if_neg hxy]

theorem widenFold_shaped {w h b : Nat} {x y : Int} :
    ∀ (ds : List (Int × Int)) (m : Maze), Shaped m w h →
      Shaped (widenFold w h b x y ds m) w h := by
  intro ds
  induction ds with
  | nil => intro m hs; exact hs
  | cons d ds ih =>
    intro m hs
    simp only [widenFold]
    apply ih
    split
    · exact gridSet_shaped (gridSet_shaped hs _ _ _) _ _ _
    · exact gridSet_shaped hs _ _ _

/-- The widening loop for an interior cell writes only interior cells, so
every non-interior cell keeps its value. -/
theorem widenFold_border {w h b : Nat} {x y : Int}
    (hxy : InteriorPt w h b x y) :
    ∀ (ds : List (Int × Int)) (m : Maze) (qx qy : Int),
      ¬ InteriorPt w h b qx qy →
      mget (widenFold w h b x y ds m) qx qy = mget m qx qy := by
  intro ds
  induction ds with
  | nil => intro m qx qy _; rfl
  | cons d ds ih =>
    intro m qx qy hq
    simp only [widenFold]
    rw [ih _ qx qy hq]
    have hne1 : (qx, qy) ≠ (x, y) := by
      intro hc
      apply hq
      cases hc
      exact hxy
    unfold mget mset
    rw [gridGet_gridSet_ne hne1]
    split
    next hg =>
      obtain ⟨hg1, hg2⟩ := Bool.and_eq_true_iff.mp hg
      obtain ⟨h1, h2, h3, h4⟩ := is_within_bounds_iff.1 hg1
      have hne2 : (qx, qy) ≠ (x + d.2, y + d.1) := by
        intro hc
        apply hq
        cases hc
        exact ⟨by omega, by omega, by omega, by omega⟩
      rw [gridGet_gridSet_ne hne2]
    next => rfl

theorem mget_mset_ne {m : Maze} {x y x' y' : Int} {c : Cell}
    (hne : (x', y') ≠ (x, y)) : mget (mset m x y c) x' y' = mget m x' y' :=
  gridGet_gridSet_ne hne

theorem mget_mset_self {m : Maze} {x y : Int} {c : Cell} {w h : Nat}
    (hs : Shaped m w h) (hb : is_within_bounds x y w h = true) :
    mget (mset m x y c) x y = c :=
  gridGet_gridSet_self hs hb

theorem mget_mset_self_or (m : Maze) (x y : Int) (c : Cell) :
    mget (mset m x y c) x y = c ∨ mget (mset m x y c) x y = mget m x y := by
  unfold mget mset
  rw [gridGet_eq, gridGet_eq, gridSet_eq]
  by_cases hxy : 0 ≤ x ∧ 0 ≤ y
  · rw [if_pos hxy, if_pos hxy, if_pos hxy]
    by_cases hylt : y.toNat < m.length
    · rw [List.getElem?_set_self hylt]
      simp only [Option.getD_some]
      by_cases hxlt : x.toNat < ((m.getD y.toNat [])).length
      · left
        rw [List.getD_eq_getElem?_getD] at hxlt
        rw [List.getElem?_set_self hxlt]
        simp
      · right
        rw [List.getD_eq_getElem?_getD] at hxlt
        have hnone : ((m[y.toNat]?.getD []).set x.toNat c)[x.toNat]? = none :=
          List.getElem?_eq_none (by simp only [List.length_set]; omega)
        have hnone2 : (m[y.toNat]?.getD [])[x.toNat]? = none :=
          List.getElem?_eq_none (by omega)
        rw [hnone, hnone2]
    · right
      rw [List.set_eq_of_length_le (by omega)]
  · rw [if_neg hxy, if_neg hxy]
    right
    rfl

theorem row_length_eq {m : Maze} {w h : Nat} (hs : Shaped m w h) {n : Nat}
    (hn : n < h) : (m.getD n []).length = w := by
  have hlen : n < m.length := by rw [hs.1]; omega
  have hrow : m.getD n [] ∈ m := by
    rw [List.getD_eq_getElem?_getD, List.getElem?_eq_getElem hlen]
    exact List.getElem_mem hlen
  exact hs.2 _ hrow

theorem polishRowCells_shaped {w h b : Nat} {y : Int} :
    ∀ (xs : List Nat) (m : Maze), Shaped m w h →
      Shaped (polishRowCells w h b y xs m) w h := by
  intro xs
  induction xs with
  | nil => intro m hs; exact hs
  | cons x xs ih =>
    intro m hs
    simp only [polishRowCells]
    apply ih
    split
    · exact gridSet_shaped hs _ _ _
    · split
      · exact widenFold_shaped _ _ hs
      · exact hs

/-- Processing the cells of an interior row never changes a non-interior
cell, except possibly writing `wall` to it. -/
theorem polishRowCells_border_pres {w h b : Nat} {y : Int}
    (hy : (b : Int) ≤ y ∧ y < (h : Int) - b) :
    ∀ (xs : List Nat) (m : Maze) (qx qy : Int), ¬ InteriorPt w h b qx qy →
      mget (polishRowCells w h b y xs m) qx qy = Cell.wall ∨
      mget (polishRowCells w h b y xs m) qx qy = mget m qx qy := by
  intro xs
  induction xs with
  | nil => intro m qx qy _; right; rfl
  | cons x xs ih =>
    intro m qx qy hq
    simp only [polishRowCells]
    by_cases hbcol : (decide (x < b) || decide (x + b ≥ w)) = true
    · rw [if_pos hbcol]
      rcases ih (mset m x y Cell.wall) qx qy hq with hw | hu
      · exact Or.inl hw
      · rcases eq_or_ne (qx, qy) (((x : Int), y)) with heq | hne
        · rcases mget_mset_self_or m x y Cell.wall with hself | hkeep
          · left
            rw [hu]
            rw [show qx = (x : Int) from congrArg Prod.fst heq,
              show qy = y from congrArg Prod.snd heq]
            exact hself
          · right
            rw [hu]
            rw [show qx = (x : Int) from congrArg Prod.fst heq,
              show qy = y from congrArg Prod.snd heq]
            exact hkeep
        · right
          rw [hu, mget_mset_ne hne]
    · rw [if_neg hbcol]
      have hxint : (b : Int) ≤ (x : Int) ∧ (x : Int) < (w : Int) - b := by
        simp only [Bool.or_eq_true, decide_eq_true_eq] at hbcol
        push_neg at hbcol
        constructor <;> omega
      split
      · rcases ih _ qx qy hq with hw | hu
        · exact Or.inl hw
        · right
          rw [hu]
          exact widenFold_border ⟨hxint.1, hxint.2, hy.1, hy.2⟩ _ m qx qy hq
      · exact ih m qx qy hq

/-- Processing the cells of an interior row forces every processed
border-column cell of that row to `wall`. -/
theorem polishRowCells_border_est {w h b : Nat} {y : Int}
    (hy : (b : Int) ≤ y ∧ y < (h : Int) - b) :
    ∀ (xs : List Nat) (m : Maze) (qx : Int), Shaped m w h →
      qx.toNat ∈ xs → 0 ≤ qx → qx < (w : Int) →
      (qx < (b : Int) ∨ (w : Int) - b ≤ qx) →
      mget (polishRowCells w h b y xs m) qx y = Cell.wall := by
  intro xs
  induction xs with
  | nil => intro m qx _ hmem; exact absurd hmem (List.not_mem_nil _)
  | cons x xs ih =>
    intro m qx hs hmem hq0 hqw hqb
    simp only [polishRowCells]
    have hb0 : (0 : Int) ≤ (b : Int) := Int.ofNat_nonneg b
    by_cases hxq : (x : Int) = qx
    · have hguard : (decide (x < b) || decide (x + b ≥ w)) = true := by
        simp only [Bool.or_eq_true, decide_eq_true_eq]
        omega
      rw [if_pos hguard]
      have hbnds : is_within_bounds (x : Int) y w h = true :=
        is_within_bounds_iff.2 ⟨by omega, by omega, by omega, by omega⟩
      have hself : mget (mset m x y Cell.wall) qx y = Cell.wall := by
        rw [← hxq]
        exact mget_mset_self hs hbnds
      have hqborder : ¬ InteriorPt w h b qx y := by
        intro hc
        rcases hqb with h1 | h1 <;> [exact absurd hc.1 (by omega);
          exact absurd hc.2.1 (by omega)]
      rcases polishRowCells_border_pres hy xs (mset m x y Cell.wall) qx y
          hqborder with hw | hu
      · exact hw
      · rw [hu]
        exact hself
    · have hmem' : qx.toNat ∈ xs := by
        rcases List.mem_cons.mp hmem with heq | hmem'
        · exact absurd (by omega : (x : Int) = qx) hxq
        · exact hmem'
      split
      · exact ih _ qx (gridSet_shaped hs _ _ _) hmem' hq0 hqw hqb
      · split
        · exact ih _ qx (widenFold_shaped _ _ hs) hmem' hq0 hqw hqb
        · exact ih m qx hs hmem' hq0 hqw hqb

theorem polishRows_shaped {w h b : Nat} :
    ∀ (ys : List Nat) (m : Maze), Shaped m w h →
      Shaped (polishRows w h b ys m) w h := by
  intro ys
  induction ys with
  | nil => intro m hs; exact hs
  | cons y ys ih =>
    intro m hs
    simp only [polishRows]
    split
    · exact ih _ (set_row_shaped hs y)
    · exact ih _ (polishRowCells_shaped _ _ hs)

/-- After the polish scan of the rows in `ys`, every non-interior cell in
a processed row is `wall`, and unprocessed rows are untouched. -/
theorem polishRows_border {w h b : Nat} :
    ∀ (ys : List Nat) (m : Maze), Shaped m w h → (∀ yy ∈ ys, yy < h) →
      ∀ qx qy : Int, ¬ InteriorPt w h b qx qy →
        mget (polishRows w h b ys m) qx qy = Cell.wall ∨
        ((∀ yy ∈ ys, (yy : Int) ≠ qy) ∧
          mget (polishRows w h b ys m) qx qy = mget m qx qy) := by
  intro ys
  induction ys with
  | nil => intro m _ _ qx qy _; right; exact ⟨by simp, rfl⟩
  | cons y0 ys ih =>
    intro m hs hys qx qy hq
    have hy0h : y0 < h := hys y0 (List.mem_cons_self y0 ys)
    have hys' : ∀ yy ∈ ys, yy < h := fun yy hm => hys yy (List.mem_cons_of_mem _ hm)
    simp only [polishRows]
    by_cases hbrow : (decide (y0 < b) || decide (y0 + b ≥ h)) = true
    · rw [if_pos hbrow]
      rcases ih _ (set_row_shaped hs y0) hys' qx qy hq with hw | ⟨hnot, hu⟩
      · exact Or.inl hw
      · by_cases hqy : qy = (y0 : Int)
        · left
          rw [hu, hqy]
          exact mget_set_row_self hs hy0h qx
        · right
          refine ⟨fun yy hm => ?_, ?_⟩
          · rcases List.mem_cons.mp hm with rfl | hm'
            · exact fun hc => hqy hc.symm
            · exact hnot yy hm'
          · rw [hu, mget_set_row_ne y0 _ hqy]
    · rw [if_neg hbrow]
      have hy0int : (b : Int) ≤ (y0 : Int) ∧ (y0 : Int) < (h : Int) - b := by
        simp only [Bool.or_eq_true, decide_eq_true_eq] at hbrow
        push_neg at hbrow
        constructor <;> omega
      have hrowlen : (m.getD y0 []).length = w := row_length_eq hs hy0h
      have hs' := polishRowCells_shaped (w := w) (h := h) (b := b)
        (y := (y0 : Int)) (List.range ((m.getD y0 []).length)) m hs
      rcases ih _ hs' hys' qx qy hq with hw | ⟨hnot, hu⟩
      · exact Or.inl hw
      · by_cases hqy : qy = (y0 : Int)
        · subst hqy
          by_cases hqxr : 0 ≤ qx ∧ qx < (w : Int)
          · have hqb : qx < (b : Int) ∨ (w : Int) - b ≤ qx := by
              by_contra hc
              push_neg at hc
              exact hq ⟨hc.1, hc.2, hy0int.1, hy0int.2⟩
            have hmem : qx.toNat ∈ List.range ((m.getD y0 []).length) := by
              rw [hrowlen]
              exact List.mem_range.mpr (by omega)
            left
            rw [hu]
            exact polishRowCells_border_est hy0int _ m qx hs hmem hqxr.1
              hqxr.2 hqb
          · left
            rw [hu]
            exact mget_out hs' (by omega)
        · rcases polishRowCells_border_pres hy0int
              (List.range ((m.getD y0 []).length)) m qx qy hq with hw2 | hu2
          · left
            rw [hu]
            exact hw2
          · right
            refine ⟨fun yy hm => ?_, ?_⟩
            · rcases List.mem_cons.mp hm with rfl | hm'
              · exact fun hc => hqy hc.symm
              · exact hnot yy hm'
            · rw [hu, hu2]

theorem polish_shaped {w h b : Nat} (m : Maze) (hs : Shaped m w h) :
    Shaped (polish w h b m) w h :=
  polishRows_shaped _ m hs

theorem polish_border {w h b : Nat} (m : Maze) (hs : Shaped m w h)
    (qx qy : Int) (hq : ¬ InteriorPt w h b qx qy) :
    mget (polish w h b m) qx qy = Cell.wall := by
  unfold polish
  rcases polishRows_border (List.range m.length) m hs
      (fun yy hm => by rw [← hs.1]; exact List.mem_range.mp hm) qx qy hq with
    hw | ⟨hnot, hu⟩
  · exact hw
  · by_cases hqyr : 0 ≤ qy ∧ qy < (h : Int)
    · exfalso
      have hmem : qy.toNat ∈ List.range m.length := by
        rw [hs.1]
        exact List.mem_range.mpr (by omega)
      have hne := hnot _ hmem
      omega
    · rw [hu]
      exact mget_out hs (by omega)

theorem dfsLoop_shaped {w h : Nat} {rng : Nat → Nat} :
    ∀ (fuel : Nat) (m : Maze) (stack : List (Int × Int)) (k : Nat),
      Shaped m w h → Shaped (dfsLoop w h rng fuel m stack k) w h := by
  intro fuel
  induction fuel with
  | zero => intro m stack k hs; exact hs
  | succ n ih =>
    intro m stack k hs
    match stack with
    | [] => exact hs
    | c :: rest =>
      simp only [dfsLoop]
      split
      · rcases hfind : List.find? (fun d =>
            is_within_bounds (c.1 + d.2 * 2) (c.2 + d.1 * 2) w h &&
            decide (mget (mset m c.1 c.2 Cell.air) (c.1 + d.2 * 2)
              (c.2 + d.1 * 2) = Cell.wall)) (selectPerm (rng k) directions)
          with _ | d
        · rw [hfind]
          exact ih _ _ _ (gridSet_shaped hs _ _ _)
        · rw [hfind]
          exact ih _ _ _ (gridSet_shaped (gridSet_shaped
            (gridSet_shaped hs _ _ _) _ _ _) _ _ _)
      · exact ih _ _ _ hs

theorem dfsPhase_shaped (W H : Nat) (rng : Nat → Nat) (fuel : Nat) :
    Shaped (dfsPhase W H rng fuel) (W / 2) (H / 2) := by
  unfold dfsPhase
  refine gridSet_shaped (dfsLoop_shaped _ _ _ _ (gridSet_shaped ?_ _ _ _)) _ _ _
  exact ⟨List.length_replicate _ _, fun row hrow => by
    rw [List.eq_of_mem_replicate hrow]; simp⟩

theorem mget_expandMaze (w h : Nat) (m : Maze) (x y : Int) :
    mget (expandMaze w h m) x y =
      if 0 ≤ x ∧ x < ((w * 2 : Nat) : Int) ∧ 0 ≤ y ∧ y < ((h * 2 : Nat) : Int)
      then mget m ((x.toNat / 2 : Nat) : Int) ((y.toNat / 2 : Nat) : Int)
      else Cell.wall := by
  unfold expandMaze mget
  rw [gridGet_eq]
  by_cases hxy : 0 ≤ x ∧ 0 ≤ y
  · rw [if_pos hxy]
    by_cases hy : y.toNat < h * 2
    · rw [List.getElem?_map]
      rw [List.getElem?_range hy]
      simp only [Option.map_some', Option.getD_some]
      by_cases hx : x.toNat < w * 2
      · rw [List.getElem?_map, List.getElem?_range hx]
        simp only [Option.map_some', Option.getD_some]
        rw [if_pos ⟨hxy.1, by omega, hxy.2, by omega⟩]
      · have hnone : ((List.range (w * 2)).map fun fx =>
            gridGet Cell.wall m ((fx / 2 : Nat) : Int)
              ((y.toNat / 2 : Nat) : Int))[x.toNat]? = none :=
          List.getElem?_eq_none
            (by simp only [List.length_map, List.length_range]; omega)
        rw [hnone]
        rw [if_neg (by omega)]
        rfl
    · have hnone : ((List.range (h * 2)).map fun fy =>
          (List.range (w * 2)).map fun fx =>
            gridGet Cell.wall m ((fx / 2 : Nat) : Int)
              ((fy / 2 : Nat) : Int))[y.toNat]? = none :=
        List.getElem?_eq_none
          (by simp only [List.length_map, List.length_range]; omega)
      rw [hnone]
      rw [if_neg (by omega)]
      rfl
  · rw [if_neg hxy, if_neg (by omega)]

/-- C9 part (a), standalone: every successful `__create_maze` run returns
a maze whose entire border frame is wall. -/
theorem create_maze_border_wall (W H border : Nat) (rng : Nat → Nat)
    (fuel : Nat) (m : Maze)
    (hok : create_maze W H border rng fuel = Except.ok m) (x y : Int)
    (hb : x < (border : Int) ∨ (W : Int) - border ≤ x ∨
      y < (border : Int) ∨ (H : Int) - border ≤ y) :
    mget m x y = Cell.wall := by
  unfold create_maze at hok
  split at hok
  · exact absurd hok (by simp)
  next hWH =>
    split at hok
    · exact absurd hok (by simp)
    have hm : m = expandMaze (W / 2) (H / 2)
        (polish (W / 2) (H / 2) (border / 2) (dfsPhase W H rng fuel)) :=
      (Except.ok.injEq _ _).mp hok.symm
    push_neg at hWH
    have hW2 : W % 2 = 0 := hWH.1
    have hH2 : H % 2 = 0 := hWH.2
    rw [hm, mget_expandMaze]
    split
    next hin =>
      apply polish_border _ (dfsPhase_shaped W H rng fuel)
      intro hc
      obtain ⟨hc1, hc2, hc3, hc4⟩ := hc
      rcases hb with h1 | h1 | h1 | h1 <;> omega
    next => rfl

theorem smoothRowCells_border {width height border_size : Nat}
    {sa sw an wn : Nat} {rng : Nat → Nat} {maze : Maze} {y : Int}
    (hy : (border_size : Int) ≤ y ∧ y < (height : Int) - border_size) :
    ∀ (xs : List Nat) (acc : Maze × Nat) (qx qy : Int),
      ¬ InteriorPt width height border_size qx qy →
      mget (smoothRowCells maze width height border_size sa sw an wn rng y
        xs acc).1 qx qy = mget acc.1 qx qy := by
  intro xs
  induction xs with
  | nil => intro acc qx qy _; rfl
  | cons x xs ih =>
    intro acc qx qy hq
    simp only [smoothRowCells]
    rw [ih _ qx qy hq]
    by_cases hskip : (decide (x < border_size) ||
        decide (x + border_size ≥ width)) = true
    · rw [if_pos hskip]
    · rw [if_neg hskip]
      have hxint : (border_size : Int) ≤ (x : Int) ∧
          (x : Int) < (width : Int) - border_size := by
        simp only [Bool.or_eq_true, decide_eq_true_eq] at hskip
        push_neg at hskip
        constructor <;> omega
      have hne : (qx, qy) ≠ ((x : Int), y) := by
        intro hc
        cases hc
        exact hq ⟨hxint.1, hxint.2, hy.1, hy.2⟩
      simp only [smoothCellStep]
      split
      · split
        · exact mget_mset_ne hne
        · rfl
      · split
        · split
          · exact mget_mset_ne hne
          · rfl
        · rfl

theorem smoothRows_border {width height border_size : Nat}
    {sa sw an wn : Nat} {rng : Nat → Nat} {maze : Maze} :
    ∀ (ys : List Nat) (acc : Maze × Nat) (qx qy : Int),
      ¬ InteriorPt width height border_size qx qy →
      mget (smoothRows maze width height border_size sa sw an wn rng ys
        acc).1 qx qy = mget acc.1 qx qy := by
  intro ys
  induction ys with
  | nil => intro acc qx qy _; rfl
  | cons y ys ih =>
    intro acc qx qy hq
    simp only [smoothRows]
    rw [ih _ qx qy hq]
    by_cases hskip : (decide (y < border_size) ||
        decide (y + border_size ≥ height)) = true
    · rw [if_pos hskip]
    · rw [if_neg hskip]
      have hyint : (border_size : Int) ≤ (y : Int) ∧
          (y : Int) < (height : Int) - border_size := by
        simp only [Bool.or_eq_true, decide_eq_true_eq] at hskip
        push_neg at hskip
        constructor <;> omega
      exact smoothRowCells_border hyint _ acc qx qy hq

/-- C9 part (b), standalone: `__smooth_maze` never mutates a cell of the
border frame (all writes target the interior). -/
theorem smooth_maze_border (maze : Maze)
    (ammount sa sw an wn width height border_size : Nat)
    (rng : Nat → Nat) (k : Nat) (x y : Int)
    (hb : x < (border_size : Int) ∨ (width : Int) - border_size ≤ x ∨
      y < (border_size : Int) ∨ (height : Int) - border_size ≤ y) :
    mget (smooth_maze maze ammount sa sw an wn width height border_size
      rng k).1 x y = mget maze x y := by
  have hq : ¬ InteriorPt width height border_size x y := by
    intro hc
    obtain ⟨h1, h2, h3, h4⟩ := hc
    rcases hb with h5 | h5 | h5 | h5 <;> omega
  induction ammount generalizing maze k with
  | zero => rfl
  | succ n ih =>
    simp only [smooth_maze, smoothIter]
    rw [ih]
    exact smoothRows_border _ _ x y hq

/-- C9: for every random stream and fuel, every cell within the border
margin of a maze produced by `__create_maze` is wall (part a), and
`__smooth_maze` never mutates any cell of the border frame, so the border
stays wall through every smoothing pass (part b). -/
theorem maze_border_invariant :
    (∀ (W H border : Nat) (rng : Nat → Nat) (fuel : Nat) (m : Maze),
      create_maze W H border rng fuel = Except.ok m →
      ∀ x y : Int,
        x < (border : Int) ∨ (W : Int) - border ≤ x ∨
          y < (border : Int) ∨ (H : Int) - border ≤ y →
        mget m x y = Cell.wall) ∧
    (∀ (maze : Maze) (ammount sa sw an wn width height border_size : Nat)
      (rng : Nat → Nat) (k : Nat) (x y : Int),
      x < (border_size : Int) ∨ (width : Int) - border_size ≤ x ∨
        y < (border_size : Int) ∨ (height : Int) - border_size ≤ y →
      mget (smooth_maze maze ammount sa sw an wn width height border_size
        rng k).1 x y = mget maze x y) :=
  ⟨create_maze_border_wall, smooth_maze_border⟩

def c9Maze : Maze := (create_maze 8 8 2 (fun _ => 0) 6).toOption.getD []

theorem maze_border_invariant_witness :
    (create_maze 8 8 2 (fun _ => 0) 6 = Except.ok c9Maze ∧
      mget c9Maze 0 3 = Cell.wall) ∧
    mget (smooth_maze c9Maze 2 3 6 10 4 8 8 2 (fun _ => 0) 0).1 7 4 =
      mget c9Maze 7 4 :=
  ⟨⟨by decide,
    maze_border_invariant.1 8 8 2 (fun _ => 0) 6 c9Maze (by decide) 0 3
      (by decide)⟩,
   maze_border_invariant.2 c9Maze 2 3 6 10 4 8 8 2 (fun _ => 0) 0 7 4
      (by decide)⟩

/-! ## C10: connectivity of the carver's output -/

/-- Axis adjacency of grid cells. -/
def Adjacent (p q : Int × Int) : Prop :=
  (p.1 - q.1).natAbs + (p.2 - q.2).natAbs = 1

instance (p q : Int × Int) : Decidable (Adjacent p q) := by
  unfold Adjacent
  infer_instance

/-- A node of the connectivity graph: any non-wall (`Open` or `Frontier`)
cell. -/
def OpenCell (m : Maze) (p : Int × Int) : Prop :=
  mget m p.1 p.2 ≠ Cell.wall

instance (m : Maze) (p : Int × Int) : Decidable (OpenCell m p) := by
  unfold OpenCell
  infer_instance

/-- One edge of the connectivity graph. -/
def MazeStep (m : Maze) (p q : Int × Int) : Prop :=
  Adjacent p q ∧ OpenCell m p ∧ OpenCell m q

/-- Reachability along open cells by axis steps. -/
def MazeReach (m : Maze) (s t : Int × Int) : Prop :=
  Relation.ReflTransGen (MazeStep m) s t

theorem adjacent_symm {p q : Int × Int} (h : Adjacent p q) : Adjacent q p := by
  unfold Adjacent at h ⊢
  omega

theorem mazeReach_mono {m m' : Maze}
    (hsub : ∀ p, OpenCell m p → OpenCell m' p) {s t : Int × Int}
    (h : MazeReach m s t) : MazeReach m' s t :=
  Relation.ReflTransGen.mono
    (fun _ _ hab => ⟨hab.1, hsub _ hab.2.1, hsub _ hab.2.2⟩) h

/-- If a set of cells is sealed (every axis neighbour outside the set is
a wall) and does not contain the start, then nothing in it is reachable
from the start. -/
theorem not_reach_of_sealed (m : Maze) (S : List (Int × Int))
    (s t : Int × Int) (hs : s ∉ S) (ht : t ∈ S)
    (hseal : ∀ p ∈ S, ∀ d ∈ ([(1, 0), (-1, 0), (0, 1), (0, -1)] :
        List (Int × Int)),
      ((p.1 + d.1, p.2 + d.2) ∈ S) ∨
        mget m (p.1 + d.1) (p.2 + d.2) = Cell.wall) :
    ¬ MazeReach m s t := by
  intro hr
  have key : ∀ u, MazeReach m s u → u ∉ S := by
    intro u hu
    induction hu with
    | refl => exact hs
    | @tail b c _ hbc ih =>
      intro hcS
      obtain ⟨hadj, hob, hoc⟩ := hbc
      have hd : (b.1 = c.1 + 1 ∧ b.2 = c.2) ∨ (b.1 = c.1 + -1 ∧ b.2 = c.2) ∨
          (b.1 = c.1 ∧ b.2 = c.2 + 1) ∨ (b.1 = c.1 ∧ b.2 = c.2 + -1) := by
        unfold Adjacent at hadj
        omega
      have hbprod : ∀ d ∈ ([(1, 0), (-1, 0), (0, 1), (0, -1)] :
          List (Int × Int)), b.1 = c.1 + d.1 → b.2 = c.2 + d.2 →
          b ∈ S ∨ mget m b.1 b.2 = Cell.wall := by
        intro d hdmem h1 h2
        rcases hseal c hcS d hdmem with hin | hwall
        · left
          have hbeq : b = (c.1 + d.1, c.2 + d.2) := Prod.ext h1 h2
          rw [hbeq]
          exact hin
        · right
          rw [h1, h2]
          exact hwall
      have hbS : b ∈ S ∨ mget m b.1 b.2 = Cell.wall := by
        rcases hd with ⟨h1, h2⟩ | ⟨h1, h2⟩ | ⟨h1, h2⟩ | ⟨h1, h2⟩
        · exact hbprod (1, 0) (by decide) (show b.1 = c.1 + 1 by omega)
            (show b.2 = c.2 + 0 by omega)
        · exact hbprod (-1, 0) (by decide) (show b.1 = c.1 + -1 by omega)
            (show b.2 = c.2 + 0 by omega)
        · exact hbprod (0, 1) (by decide) (show b.1 = c.1 + 0 by omega)
            (show b.2 = c.2 + 1 by omega)
        · exact hbprod (0, -1) (by decide) (show b.1 = c.1 + 0 by omega)
            (show b.2 = c.2 + -1 by omega)
      rcases hbS with hbin | hbwall
      · exact ih hbin
      · exact hob hbwall
  exact key t hr ht

/-- A direction stream realizing the disconnecting run at `(16, 16)` with
border 2: index `k` selects the permutation whose head is the carving
direction taken at the k-th shuffle. -/
def badRng : Nat → Nat := fun k =>
  [3, 3, 1, 2, 1, 2, 0, 2, 1, 0, 0, 3, 3, 3, 3].getD k 0

def c10Maze : Maze := (create_maze 16 16 2 badRng 64).toOption.getD []

/-- The sealed open region produced by the `badRng` run: the full
resolution blocks of the half-resolution cells `(2,2)`, `(1,2)`, `(2,1)`. -/
def c10Region : List (Int × Int) :=
  [(4, 4), (5, 4), (4, 5), (5, 5), (2, 4), (3, 4), (2, 5), (3, 5),
   (4, 2), (5, 2), (4, 3), (5, 3)]

/-- C10 counterexample: for dimensions `(16, 16)` with (even) border 2 --
valid per the claim, since `2 < min(16,16)/2` -- there is a seed for
which the carver's final output contains an open cell, `(4, 4)`, that is
not reachable from the (open) start cell `(8, 8)`: the border enforcement
walls off carved cells of the border columns/rows, disconnecting the room
around half-cell `(2, 2)`.  So the output is not connected after the
widening pass. -/
theorem carver_connectivity_counterexample :
    create_maze 16 16 2 badRng 64 = Except.ok c10Maze ∧
    OpenCell c10Maze (8, 8) ∧
    OpenCell c10Maze (4, 4) ∧
    ¬ MazeReach c10Maze (8, 8) (4, 4) := by
  refine ⟨by decide, by decide, by decide, ?_⟩
  exact not_reach_of_sealed c10Maze c10Region (8, 8) (4, 4) (by decide)
    (by decide) (by decide)

theorem selectPermAux_mem {α : Type} :
    ∀ (k n : Nat) (l : List α) (x : α), x ∈ selectPermAux k n l → x ∈ l := by
  intro k
  induction k with
  | zero => intro n l x hx; exact absurd hx (List.not_mem_nil x)
  | succ k ih =>
    intro n l x hx
    match l with
    | [] => exact absurd hx (List.not_mem_nil x)
    | a :: as =>
      simp only [selectPermAux] at hx
      rcases List.mem_cons.mp hx with rfl | hx'
      · rw [List.getD_eq_getElem?_getD]
        rcases hlt : (a :: as)[n % (a :: as).length]? with _ | v
        · exact List.mem_cons_self a as
        · exact List.getElem?_mem hlt
      · exact List.mem_of_mem_eraseIdx (ih _ _ x hx')

theorem selectPerm_mem {α : Type} (n : Nat) (l : List α) (x : α)
    (hx : x ∈ selectPerm n l) : x ∈ l :=
  selectPermAux_mem _ _ _ _ hx

theorem directions_cases {d : Int × Int} (hd : d ∈ directions) :
    d = (1, 0) ∨ d = (-1, 0) ∨ d = (0, 1) ∨ d = (0, -1) := by
  simpa [directions] using hd

theorem open_in_bounds {m : Maze} {w h : Nat} (hs : Shaped m w h)
    {p : Int × Int} (hp : OpenCell m p) :
    is_within_bounds p.1 p.2 w h = true := by
  unfold OpenCell mget at hp
  rw [gridGet_eq] at hp
  by_cases hxy : 0 ≤ p.1 ∧ 0 ≤ p.2
  · rw [if_pos hxy] at hp
    by_cases hylt : p.2.toNat < m.length
    · have hrow : m[p.2.toNat]?.getD [] ∈ m := by
        rw [List.getElem?_eq_getElem hylt]
        exact List.getElem_mem hylt
      have hlen := hs.2 _ hrow
      by_cases hxlt : p.1.toNat < (m[p.2.toNat]?.getD []).length
      · have h1 := hs.1
        exact is_within_bounds_iff.2 ⟨hxy.1, by omega, hxy.2, by omega⟩
      · have hnone : (m[p.2.toNat]?.getD [])[p.1.toNat]? = none :=
          List.getElem?_eq_none (by omega)
        rw [hnone] at hp
        exact absurd rfl hp
    · have hnone : m[p.2.toNat]? = none := List.getElem?_eq_none (by omega)
      rw [hnone] at hp
      exact absurd rfl hp
  · rw [if_neg hxy] at hp
    exact absurd rfl hp

theorem open_mset_of_ne_wall {m : Maze} {x y : Int} {c : Cell}
    (hc : c ≠ Cell.wall) {p : Int × Int} (hp : OpenCell m p) :
    OpenCell (mset m x y c) p := by
  unfold OpenCell at hp ⊢
  by_cases hpe : (p.1, p.2) = (x, y)
  · have hx : p.1 = x := congrArg Prod.fst hpe
    have hy : p.2 = y := congrArg Prod.snd hpe
    subst hx
    subst hy
    rcases mget_mset_self_or m p.1 p.2 c with hself | hkeep
    · rw [hself]
      exact hc
    · rw [hkeep]
      exact hp
  · rw [mget_mset_ne hpe]
    exact hp

theorem open_mset_elim {m : Maze} {x y : Int} {c : Cell} {p : Int × Int}
    (hp : OpenCell (mset m x y c) p) :
    (p.1 = x ∧ p.2 = y) ∨ OpenCell m p := by
  by_cases hpe : (p.1, p.2) = (x, y)
  · exact Or.inl ⟨congrArg Prod.fst hpe, congrArg Prod.snd hpe⟩
  · right
    unfold OpenCell at hp ⊢
    rw [mget_mset_ne hpe] at hp
    exact hp

/-- Main invariant of the randomized DFS carving loop: every cell carved
open is reachable from the start cell through open cells, for every
direction stream, fuel and stack satisfying the invariant. -/
theorem dfsLoop_connected {w h : Nat} {rng : Nat → Nat} (start : Int × Int) :
    ∀ (fuel : Nat) (m : Maze) (stack : List (Int × Int)) (k : Nat),
      Shaped m w h →
      (∀ q ∈ stack, OpenCell m q) →
      OpenCell m start →
      (∀ p, OpenCell m p → MazeReach m start p) →
      (∀ p, OpenCell (dfsLoop w h rng fuel m stack k) p →
        MazeReach (dfsLoop w h rng fuel m stack k) start p) ∧
      OpenCell (dfsLoop w h rng fuel m stack k) start := by
  intro fuel
  induction fuel with
  | zero => intro m stack k _ _ hst hall; exact ⟨hall, hst⟩
  | succ n ih =>
    intro m stack k hs hstack hst hall
    match stack with
    | [] => exact ⟨hall, hst⟩
    | c :: rest =>
      simp only [dfsLoop]
      split
      case isFalse =>
        exact ih m rest k hs
          (fun q hq => hstack q (List.mem_cons_of_mem _ hq)) hst hall
      case isTrue hunv =>
        have hcopen : OpenCell m c := hstack c (List.mem_cons_self c rest)
        have hcb : is_within_bounds c.1 c.2 w h = true := open_in_bounds hs hcopen
        have hs1 : Shaped (mset m c.1 c.2 Cell.air) w h := gridSet_shaped hs _ _ _
        have hopen1 : ∀ p, OpenCell m p → OpenCell (mset m c.1 c.2 Cell.air) p :=
          fun p hp => open_mset_of_ne_wall (by simp) hp
        have hopen1' : ∀ p, OpenCell (mset m c.1 c.2 Cell.air) p → OpenCell m p := by
          intro p hp
          rcases open_mset_elim hp with ⟨h1, h2⟩ | hp'
          · rw [Prod.ext h1 h2]
            exact hcopen
          · exact hp'
        have hall1 : ∀ p, OpenCell (mset m c.1 c.2 Cell.air) p →
            MazeReach (mset m c.1 c.2 Cell.air) start p :=
          fun p hp => mazeReach_mono hopen1 (hall p (hopen1' p hp))
        have hst1 : OpenCell (mset m c.1 c.2 Cell.air) start := hopen1 _ hst
        have hstack1 : ∀ q ∈ c :: rest, OpenCell (mset m c.1 c.2 Cell.air) q :=
          fun q hq => hopen1 _ (hstack q hq)
        rcases hfind : List.find? (fun d =>
            is_within_bounds (c.1 + d.2 * 2) (c.2 + d.1 * 2) w h &&
            decide (mget (mset m c.1 c.2 Cell.air) (c.1 + d.2 * 2)
              (c.2 + d.1 * 2) = Cell.wall)) (selectPerm (rng k) directions)
          with _ | d
        · rw [hfind]
          exact ih _ _ _ hs1 hstack1 hst1 hall1
        · rw [hfind]
          have hdmem : d ∈ directions :=
            selectPerm_mem _ _ _ (List.mem_of_find?_eq_some hfind)
          have hdpred := List.find?_some hfind
          obtain ⟨hdb, hdw⟩ := Bool.and_eq_true_iff.mp hdpred
          have hdunit : d.1.natAbs + d.2.natAbs = 1 := by
            rcases directions_cases hdmem with rfl | rfl | rfl | rfl <;> decide
          obtain ⟨hcb1, hcb2, hcb3, hcb4⟩ := is_within_bounds_iff.1 hcb
          obtain ⟨htb1, htb2, htb3, htb4⟩ := is_within_bounds_iff.1 hdb
          have hlb : is_within_bounds (c.1 + d.2) (c.2 + d.1) w h = true :=
            is_within_bounds_iff.2 ⟨by omega, by omega, by omega, by omega⟩
          have hs2 : Shaped (mset (mset m c.1 c.2 Cell.air)
              (c.1 + d.2) (c.2 + d.1) Cell.air) w h :=
            gridSet_shaped hs1 _ _ _
          have hs3 : Shaped (mset (mset (mset m c.1 c.2 Cell.air)
              (c.1 + d.2) (c.2 + d.1) Cell.air)
              (c.1 + d.2 * 2) (c.2 + d.1 * 2) Cell.hole) w h :=
            gridSet_shaped hs2 _ _ _
          have hne_lt : ((c.1 + d.2, c.2 + d.1) : Int × Int) ≠
              (c.1 + d.2 * 2, c.2 + d.1 * 2) := by
            intro hq
            rw [Prod.mk.injEq] at hq
            omega
          have hne_cl : ((c.1, c.2) : Int × Int) ≠ (c.1 + d.2, c.2 + d.1) := by
            intro hq
            rw [Prod.mk.injEq] at hq
            omega
          have hne_ct : ((c.1, c.2) : Int × Int) ≠
              (c.1 + d.2 * 2, c.2 + d.1 * 2) := by
            intro hq
            rw [Prod.mk.injEq] at hq
            omega
          have hopen13 : ∀ p, OpenCell m p →
              OpenCell (mset (mset (mset m c.1 c.2 Cell.air)
                (c.1 + d.2) (c.2 + d.1) Cell.air)
                (c.1 + d.2 * 2) (c.2 + d.1 * 2) Cell.hole) p :=
            fun p hp => open_mset_of_ne_wall (by simp)
              (open_mset_of_ne_wall (by simp)
                (open_mset_of_ne_wall (by simp) hp))
          have hopen23 : ∀ p, OpenCell (mset m c.1 c.2 Cell.air) p →
              OpenCell (mset (mset (mset m c.1 c.2 Cell.air)
                (c.1 + d.2) (c.2 + d.1) Cell.air)
                (c.1 + d.2 * 2) (c.2 + d.1 * 2) Cell.hole) p :=
            fun p hp => open_mset_of_ne_wall (by simp)
              (open_mset_of_ne_wall (by simp) hp)
          have hm3t : mget (mset (mset (mset m c.1 c.2 Cell.air)
              (c.1 + d.2) (c.2 + d.1) Cell.air)
              (c.1 + d.2 * 2) (c.2 + d.1 * 2) Cell.hole)
              (c.1 + d.2 * 2) (c.2 + d.1 * 2) = Cell.hole :=
            mget_mset_self hs2 hdb
          have hm3l : mget (mset (mset (mset m c.1 c.2 Cell.air)
              (c.1 + d.2) (c.2 + d.1) Cell.air)
              (c.1 + d.2 * 2) (c.2 + d.1 * 2) Cell.hole)
              (c.1 + d.2) (c.2 + d.1) = Cell.air := by
            rw [mget_mset_ne hne_lt]
            exact mget_mset_self hs1 hlb
          have hm3c : mget (mset (mset (mset m c.1 c.2 Cell.air)
              (c.1 + d.2) (c.2 + d.1) Cell.air)
              (c.1 + d.2 * 2) (c.2 + d.1 * 2) Cell.hole) c.1 c.2 = Cell.air := by
            rw [mget_mset_ne hne_ct, mget_mset_ne hne_cl]
            exact mget_mset_self hs hcb
          have hadj_cl : Adjacent c (c.1 + d.2, c.2 + d.1) := by
            show ((c.1 - (c.1 + d.2)).natAbs + (c.2 - (c.2 + d.1)).natAbs = 1)
            omega
          have hadj_lt : Adjacent (c.1 + d.2, c.2 + d.1)
              (c.1 + d.2 * 2, c.2 + d.1 * 2) := by
            show (((c.1 + d.2) - (c.1 + d.2 * 2)).natAbs +
              ((c.2 + d.1) - (c.2 + d.1 * 2)).natAbs = 1)
            omega
          have ho3c : OpenCell (mset (mset (mset m c.1 c.2 Cell.air)
              (c.1 + d.2) (c.2 + d.1) Cell.air)
              (c.1 + d.2 * 2) (c.2 + d.1 * 2) Cell.hole) c := by
            show mget _ c.1 c.2 ≠ Cell.wall
            rw [hm3c]
            simp
          have ho3l : OpenCell (mset (mset (mset m c.1 c.2 Cell.air)
              (c.1 + d.2) (c.2 + d.1) Cell.air)
              (c.1 + d.2 * 2) (c.2 + d.1 * 2) Cell.hole)
              (c.1 + d.2, c.2 + d.1) := by
            show mget _ (c.1 + d.2) (c.2 + d.1) ≠ Cell.wall
            rw [hm3l]
            simp
          have ho3t : OpenCell (mset (mset (mset m c.1 c.2 Cell.air)
              (c.1 + d.2) (c.2 + d.1) Cell.air)
              (c.1 + d.2 * 2) (c.2 + d.1 * 2) Cell.hole)
              (c.1 + d.2 * 2, c.2 + d.1 * 2) := by
            show mget _ (c.1 + d.2 * 2) (c.2 + d.1 * 2) ≠ Cell.wall
            rw [hm3t]
            simp
          have hreach_l : MazeReach (mset (mset (mset m c.1 c.2 Cell.air)
              (c.1 + d.2) (c.2 + d.1) Cell.air)
              (c.1 + d.2 * 2) (c.2 + d.1 * 2) Cell.hole) start
              (c.1 + d.2, c.2 + d.1) :=
            Relation.ReflTransGen.tail
              (mazeReach_mono hopen13 (hall c hcopen))
              ⟨hadj_cl, ho3c, ho3l⟩
          have hreach_t : MazeReach (mset (mset (mset m c.1 c.2 Cell.air)
              (c.1 + d.2) (c.2 + d.1) Cell.air)
              (c.1 + d.2 * 2) (c.2 + d.1 * 2) Cell.hole) start
              (c.1 + d.2 * 2, c.2 + d.1 * 2) :=
            Relation.ReflTransGen.tail hreach_l ⟨hadj_lt, ho3l, ho3t⟩
          have hall3 : ∀ p, OpenCell (mset (mset (mset m c.1 c.2 Cell.air)
              (c.1 + d.2) (c.2 + d.1) Cell.air)
              (c.1 + d.2 * 2) (c.2 + d.1 * 2) Cell.hole) p →
              MazeReach (mset (mset (mset m c.1 c.2 Cell.air)
                (c.1 + d.2) (c.2 + d.1) Cell.air)
                (c.1 + d.2 * 2) (c.2 + d.1 * 2) Cell.hole) start p := by
            intro p hp
            rcases open_mset_elim hp with ⟨h1, h2⟩ | hp2
            · have hpq : p = (c.1 + d.2 * 2, c.2 + d.1 * 2) := by
                rw [Prod.ext_iff]
                exact ⟨h1, h2⟩
              rw [hpq]
              exact hreach_t
            · rcases open_mset_elim hp2 with ⟨h1, h2⟩ | hp3
              · have hpq : p = (c.1 + d.2, c.2 + d.1) := by
                  rw [Prod.ext_iff]
                  exact ⟨h1, h2⟩
                rw [hpq]
                exact hreach_l
              · exact mazeReach_mono hopen23 (hall1 p hp3)
          have hstack3 : ∀ q ∈ ((c.1 + d.2 * 2, c.2 + d.1 * 2) :: c :: rest),
              OpenCell (mset (mset (mset m c.1 c.2 Cell.air)
                (c.1 + d.2) (c.2 + d.1) Cell.air)
                (c.1 + d.2 * 2) (c.2 + d.1 * 2) Cell.hole) q := by
            intro q hq
            rcases List.mem_cons.mp hq with rfl | hq'
            · exact ho3t
            · exact hopen23 _ (hstack1 q hq')
          exact ih _ _ _ hs3 hstack3 (hopen13 _ hst) hall3

/-- The half-resolution maze produced by the carving phase (the all-wall
grid, the start cell opened, the DFS loop, and the final `HOLE` write at
the start) is connected: every open cell is reachable from the start
cell.  Generic in the half dimensions, direction stream and fuel. -/
theorem dfsPhase_connected_aux (w h : Nat) (rng : Nat → Nat) (fuel : Nat)
    (hw : 1 ≤ w) (hh : 1 ≤ h) (p : Int × Int)
    (hp : OpenCell (mset (dfsLoop w h rng fuel
        (mset (List.replicate h (List.replicate w Cell.wall))
          (((w / 2 : Nat) : Int)) (((h / 2 : Nat) : Int)) Cell.air)
        [(((w / 2 : Nat) : Int), ((h / 2 : Nat) : Int))] 0)
      (((w / 2 : Nat) : Int)) (((h / 2 : Nat) : Int)) Cell.hole) p) :
    MazeReach (mset (dfsLoop w h rng fuel
        (mset (List.replicate h (List.replicate w Cell.wall))
          (((w / 2 : Nat) : Int)) (((h / 2 : Nat) : Int)) Cell.air)
        [(((w / 2 : Nat) : Int), ((h / 2 : Nat) : Int))] 0)
      (((w / 2 : Nat) : Int)) (((h / 2 : Nat) : Int)) Cell.hole)
      (((w / 2 : Nat) : Int), ((h / 2 : Nat) : Int)) p := by
  have hs0 : Shaped (List.replicate h (List.replicate w Cell.wall)) w h := by
    constructor
    · simp
    · intro row hrow
      rw [List.eq_of_mem_replicate hrow]
      simp
  have hb : is_within_bounds (((w / 2 : Nat) : Int)) (((h / 2 : Nat) : Int))
      w h = true :=
    is_within_bounds_iff.2 ⟨by omega, by omega, by omega, by omega⟩
  have hs1 : Shaped (mset (List.replicate h (List.replicate w Cell.wall))
      (((w / 2 : Nat) : Int)) (((h / 2 : Nat) : Int)) Cell.air) w h :=
    gridSet_shaped hs0 _ _ _
  have hm0wall : ∀ q : Int × Int,
      mget (List.replicate h (List.replicate w Cell.wall)) q.1 q.2 =
        Cell.wall := by
    intro q
    unfold mget
    rw [gridGet_replicate]
    split <;> rfl
  have hstart : OpenCell (mset (List.replicate h (List.replicate w Cell.wall))
      (((w / 2 : Nat) : Int)) (((h / 2 : Nat) : Int)) Cell.air)
      (((w / 2 : Nat) : Int), ((h / 2 : Nat) : Int)) := by
    show mget _ (((w / 2 : Nat) : Int)) (((h / 2 : Nat) : Int)) ≠ Cell.wall
    rw [mget_mset_self hs0 hb]
    simp
  have hall1 : ∀ q, OpenCell (mset (List.replicate h (List.replicate w Cell.wall))
      (((w / 2 : Nat) : Int)) (((h / 2 : Nat) : Int)) Cell.air) q →
      MazeReach (mset (List.replicate h (List.replicate w Cell.wall))
        (((w / 2 : Nat) : Int)) (((h / 2 : Nat) : Int)) Cell.air)
        (((w / 2 : Nat) : Int), ((h / 2 : Nat) : Int)) q := by
    intro q hq
    rcases open_mset_elim hq with ⟨h1, h2⟩ | hq0
    · have hqe : q = (((w / 2 : Nat) : Int), ((h / 2 : Nat) : Int)) := by
        rw [Prod.ext_iff]
        exact ⟨h1, h2⟩
      rw [hqe]
      exact Relation.ReflTransGen.refl
    · exact absurd (hm0wall q) hq0
  obtain ⟨hallL, hstL⟩ :=
    @dfsLoop_connected w h rng
      (((w / 2 : Nat) : Int), ((h / 2 : Nat) : Int)) fuel
      (mset (List.replicate h (List.replicate w Cell.wall))
        (((w / 2 : Nat) : Int)) (((h / 2 : Nat) : Int)) Cell.air)
      [(((w / 2 : Nat) : Int), ((h / 2 : Nat) : Int))] 0 hs1
      (by
        intro q hq
        rw [List.mem_singleton] at hq
        rw [hq]
        exact hstart)
      hstart hall1
  rcases open_mset_elim hp with ⟨h1, h2⟩ | hp2
  · have hpe : p = (((w / 2 : Nat) : Int), ((h / 2 : Nat) : Int)) := by
      rw [Prod.ext_iff]
      exact ⟨h1, h2⟩
    rw [hpe]
    exact Relation.ReflTransGen.refl
  · exact mazeReach_mono
      (fun q hq => open_mset_of_ne_wall (by simp) hq) (hallL p hp2)

/-- C10 (amended): for every even-dimension request with `W, H ≥ 2` and
every direction stream and fuel, the half-resolution maze produced by the
DFS carving phase of `Map.__create_maze` — BEFORE the border-enforcement
and widening polish scan — is connected: every open cell is reachable
from the start cell `(W/2/2, H/2/2)` through axis-adjacent open cells.
The original claim that connectivity also survives the polish pass is
refuted by `carver_connectivity_counterexample`. -/
theorem dfs_carve_connected (W H : Nat) (rng : Nat → Nat) (fuel : Nat)
    (hW : 2 ≤ W) (hH : 2 ≤ H) (p : Int × Int)
    (hp : OpenCell (dfsPhase W H rng fuel) p) :
    MazeReach (dfsPhase W H rng fuel)
      (((W / 2 / 2 : Nat) : Int), ((H / 2 / 2 : Nat) : Int)) p :=
  dfsPhase_connected_aux (W / 2) (H / 2) rng fuel (by omega) (by omega) p hp

/-- Concrete instance of the carving-phase connectivity theorem: in the
half-resolution maze carved for an 8×8 request with the all-zeros stream,
the open cell `(0, 2)` is reachable from the start cell `(2, 2)`. -/
theorem dfs_carve_connected_witness :
    MazeReach (dfsPhase 8 8 (fun _ => 0) 32)
      (((8 / 2 / 2 : Nat) : Int), ((8 / 2 / 2 : Nat) : Int)) (0, 2) :=
  dfs_carve_connected 8 8 (fun _ => 0) 32 (by decide) (by decide) (0, 2)
    (by decide)

end Game
